import Mathlib

/-!
# sbstck-dl: the extraction pipeline of `lib/extractor.go` and `lib/utils.go`

A shallow embedding of the library code of the downloader.  Go strings are
byte sequences; calls into the standard library and into third-party packages
(HTTP, goquery, encoding/json, the file system) are either modelled after their
documented behaviour (`strings`, `net/url`) or taken as fields of an
environment record (`Env`).
-/

set_option autoImplicit false

namespace SbstckDl

/-! ## Go strings -/

/-- A Go string is a sequence of bytes, each given by its value. -/
abbrev GoString := List Nat

/-- The bytes of an ASCII literal. -/
def bytes (s : String) : GoString := s.toList.map Char.toNat

/-- An `error` value, identified by its message. -/
abbrev Error := String

/-- Go's `a < b` on strings: bytewise lexicographic comparison. -/
def strLess : GoString → GoString → Bool
  | [], [] => false
  | [], _ :: _ => true
  | _ :: _, [] => false
  | a :: as, b :: bs =>
    if a < b then true else if b < a then false else strLess as bs

/-- Position of the first occurrence of `sub` in `s`, counted from `i`. -/
def indexFrom (sub : GoString) : GoString → Nat → Option Nat
  | [], i => if sub = [] then some i else none
  | c :: s, i => if sub.isPrefixOf (c :: s) then some i else indexFrom sub s (i + 1)

/-- Go's `strings.Index(s, substr)`: the index of the first instance of `substr`
in `s`, or `-1` if `substr` is not present. -/
def Index (s substr : GoString) : Int :=
  match indexFrom substr s 0 with
  | some i => (i : Int)
  | none => -1

/-- Go's `strings.Contains(s, substr)`, which is `Index(s, substr) >= 0`. -/
def Contains (s substr : GoString) : Bool := decide (0 ≤ Index s substr)

/-- Position of the last occurrence of `sub` in `s`, counted from `i`. -/
def lastIndexFrom (sub : GoString) : GoString → Nat → Option Nat
  | [], i => if sub = [] then some i else none
  | c :: s, i =>
    match lastIndexFrom sub s (i + 1) with
    | some j => some j
    | none => if sub.isPrefixOf (c :: s) then some i else none

/-- Go's `strings.LastIndex(s, substr)`: the index of the last instance of
`substr` in `s`, or `-1` if `substr` is not present. -/
def LastIndex (s substr : GoString) : Int :=
  match lastIndexFrom substr s 0 with
  | some i => (i : Int)
  | none => -1

/-- Go's `strings.HasSuffix(s, suffix)`. -/
def HasSuffix (s suffix : GoString) : Bool := suffix.isSuffixOf s

/-- What a Go call yields: it returns, or the goroutine panics. -/
inductive Outcome (α : Type) where
  | ret (a : α)
  | panic (msg : String)
deriving DecidableEq, Repr

/-- The slice expression `s[lo:hi]` on a string: a run-time panic unless
`0 <= lo <= hi <= len(s)`. -/
def slice (s : GoString) (lo hi : Int) : Outcome GoString :=
  if 0 ≤ lo ∧ lo ≤ hi ∧ hi ≤ (s.length : Int) then
    .ret ((s.drop lo.toNat).take (hi.toNat - lo.toNat))
  else
    .panic "slice bounds out of range"

/-- Width in bytes of the first UTF-8 sequence of `s`, as `utf8.DecodeRuneInString`
reports it: `0` for the empty string, `1` for an ASCII byte and for an invalid
or truncated sequence. -/
def runeLen : GoString → Nat
  | [] => 0
  | s0 :: rest =>
    if s0 < 0xC2 then 1
    else if s0 ≤ 0xDF then
      match rest with
      | s1 :: _ => if 0x80 ≤ s1 ∧ s1 ≤ 0xBF then 2 else 1
      | _ => 1
    else if s0 ≤ 0xEF then
      match rest with
      | s1 :: s2 :: _ =>
        if (if s0 = 0xE0 then 0xA0 else 0x80) ≤ s1 ∧ s1 ≤ (if s0 = 0xED then 0x9F else 0xBF)
            ∧ 0x80 ≤ s2 ∧ s2 ≤ 0xBF then 3 else 1
      | _ => 1
    else if s0 ≤ 0xF4 then
      match rest with
      | s1 :: s2 :: s3 :: _ =>
        if (if s0 = 0xF0 then 0x90 else 0x80) ≤ s1 ∧ s1 ≤ (if s0 = 0xF4 then 0x8F else 0xBF)
            ∧ 0x80 ≤ s2 ∧ s2 ≤ 0xBF ∧ 0x80 ≤ s3 ∧ s3 ≤ 0xBF then 4 else 1
      | _ => 1
    else 1

/-- The UTF-8 sequences of `s` in order (`n` bounds the number of sequences). -/
def runes : Nat → GoString → List GoString
  | 0, _ => []
  | _ + 1, [] => []
  | n + 1, c :: s => (c :: s).take (runeLen (c :: s)) :: runes n ((c :: s).drop (runeLen (c :: s)))

/-- The loop of `strings.Replace` for a non-empty `old`: find the next instance
with `Index`, copy what precedes it, write `new`, continue after the instance.
The first argument bounds the number of replacements. -/
def replaceLoop (old new : GoString) : Nat → GoString → GoString
  | 0, s => s
  | n + 1, s =>
    match indexFrom old s 0 with
    | none => s
    | some j => s.take j ++ new ++ replaceLoop old new n (s.drop (j + old.length))

/-- Go's `strings.ReplaceAll(s, old, new)`: all non-overlapping instances of `old`
replaced by `new`; an empty `old` matches at the beginning of the string and
after each UTF-8 sequence. -/
def ReplaceAll (s old new : GoString) : GoString :=
  if old = new then s
  else if old = [] then new ++ ((runes s.length s).map (fun r => r ++ new)).flatten
  else replaceLoop old new s.length s

/-- The loop of `strings.Split` for a non-empty separator. -/
def splitLoop (sep : GoString) : Nat → GoString → List GoString
  | 0, s => [s]
  | n + 1, s =>
    match indexFrom sep s 0 with
    | none => [s]
    | some m => s.take m :: splitLoop sep n (s.drop (m + sep.length))

/-- Go's `strings.Split(s, sep)` for a non-empty `sep` (the only use in this
program is with `"/"`): the substrings between the instances of `sep`. -/
def Split (s sep : GoString) (_h : sep ≠ []) : List GoString := splitLoop sep s.length s

/-- The predicate `ishex` of `net/url`. -/
def ishex (c : Nat) : Bool :=
  (48 ≤ c && c ≤ 57) || (97 ≤ c && c ≤ 102) || (65 ≤ c && c ≤ 70)

/-- The function `unhex` of `net/url`. -/
def unhex (c : Nat) : Nat :=
  if 48 ≤ c ∧ c ≤ 57 then c - 48
  else if 97 ≤ c ∧ c ≤ 102 then c - 97 + 10
  else if 65 ≤ c ∧ c ≤ 70 then c - 65 + 10
  else 0

/-- First loop of `unescape` in `net/url` (path-segment mode): every `%` is
followed by two hexadecimal digits. -/
def escapesOk : GoString → Bool
  | [] => true
  | 37 :: h :: l :: rest => ishex h && ishex l && escapesOk rest
  | 37 :: _ => false
  | _ :: rest => escapesOk rest

/-- Second loop of `unescape` in `net/url` (path-segment mode): each `%XX`
becomes the byte `unhex(X)<<4 | unhex(X)`; `+` is kept. -/
def unescapeBytes : GoString → GoString
  | [] => []
  | 37 :: h :: l :: rest => (unhex h * 16 + unhex l) :: unescapeBytes rest
  | c :: rest => c :: unescapeBytes rest

/-- Go's `url.PathUnescape`: the unescaped string, or `""` and an `EscapeError`. -/
def PathUnescape (s : GoString) : GoString × Option Error :=
  if escapesOk s then (unescapeBytes s, none) else ([], some "invalid URL escape")

/-! ## `utils.go`: the date filter -/

/-- The type `DateFilterFunc func(string) bool`; `none` is the nil function value. -/
abbrev DateFilterFunc := Option (GoString → Bool)

/-- `MakeDateFilterFunc` of `utils.go`. -/
def MakeDateFilterFunc (beforeDate afterDate : GoString) : DateFilterFunc :=
  if beforeDate ≠ [] ∧ afterDate ≠ [] then
    some (fun date => strLess afterDate date && strLess date beforeDate)
  else if beforeDate ≠ [] then
    some (fun date => strLess date beforeDate)
  else if afterDate ≠ [] then
    some (fun date => strLess afterDate date)
  else
    none

/-- The constant `bufio.MaxScanTokenSize`: the size to which the buffer of a
`bufio.Scanner` may grow. -/
def MaxScanTokenSize : Nat := 64 * 1024

/-- The function `dropCR` of `bufio`: a trailing carriage return is dropped. -/
def dropCR (data : GoString) : GoString :=
  if data.getLast? = some 13 then data.dropLast else data

/-- The lines that `bufio.ScanLines` cuts out of the input, before `dropCR`: the
text up to each line feed, and the text after the last line feed when it is not
empty.  `cur` is the part of the current line read so far. -/
def linesFrom : GoString → GoString → List GoString
  | [], cur => if cur = [] then [] else [cur]
  | c :: rest, cur =>
    if c = 10 then cur :: linesFrom rest [] else linesFrom rest (cur ++ [c])

/-- `ReadLogFile` of `utils.go`, on the content of the file it is given (`none`:
the file does not exist, which yields the empty set and a nil error): the set of
the lines, as the keys of the map.  `scanner.Err()` is `bufio.ErrTooLong` when a
line does not fit into the buffer of the scanner, that is when it has
`MaxScanTokenSize` bytes or more before its line feed.  Other failures of the
operating system are outside the model. -/
def ReadLogFile (logFile : Option GoString) : List GoString × Option Error :=
  match logFile with
  | none => ([], none)
  | some data =>
    if (linesFrom data []).any (fun line => decide (MaxScanTokenSize ≤ line.length)) then
      ([], some "bufio.Scanner: token too long")
    else
      ((linesFrom data []).foldl (fun downloadedPosts line => downloadedPosts.insert (dropCR line))
        [], none)

/-! ## `extractor.go`: posts and what the extractor calls -/

/-- The struct `Post`. -/
structure Post where
  Id : Int
  PublicationId : Int
  Type' : GoString
  Slug : GoString
  PostDate : GoString
  CanonicalUrl : GoString
  PreviousPostSlug : GoString
  NextPostSlug : GoString
  CoverImage : GoString
  Description : GoString
  WordCount : Int
  Title : GoString
  BodyHTML : GoString
deriving DecidableEq, Repr

/-- The zero value `Post{}`. -/
def Post.zero : Post :=
  { Id := 0, PublicationId := 0, Type' := [], Slug := [], PostDate := [], CanonicalUrl := [],
    PreviousPostSlug := [], NextPostSlug := [], CoverImage := [], Description := [],
    WordCount := 0, Title := [], BodyHTML := [] }

/-- The struct `PostWrapper`. -/
structure PostWrapper where
  Post : Post
deriving DecidableEq, Repr

/-- The struct `RawPost`. -/
structure RawPost where
  str : GoString
deriving DecidableEq, Repr

/-- The struct `ExtractResult`. -/
structure ExtractResult where
  Post : Post
  Err : Option Error
deriving DecidableEq, Repr

/-- One `<url>` element of the sitemap: the text of its `<loc>` and of its
`<lastmod>` descendants. -/
structure SitemapEntry where
  loc : GoString
  lastmod : GoString
deriving DecidableEq, Repr

/-- A `map[string]string`, as its entries in insertion order. -/
abbrev StringMap := List (GoString × GoString)

/-- The assignment `m[k] = v`. -/
def StringMap.set (m : StringMap) (k v : GoString) : StringMap :=
  if m.any (fun p => p.1 = k) then m.map (fun p => if p.1 = k then (k, v) else p)
  else m ++ [(k, v)]

/-- What the extractor obtains from outside the code under `lib/`: the fetcher,
goquery, `encoding/json`, `net/http`, `os`, `path/filepath` and the runtime. -/
structure Env where
  /-- The chain `url.Parse`, `url.JoinPath(u.Path, "sitemap.xml")`, `u.String()`. -/
  sitemapURL : GoString → Except Error GoString
  /-- The method `Fetcher.FetchURL` of the fetcher the extractor was made with: the
  body of the response.  The fetcher is taken not to be nil: `NewExtractor` stores
  the fetcher it is given as it is, and creates no default one. -/
  FetchURL : GoString → Except Error GoString
  /-- On a sitemap body, `goquery.NewDocumentFromReader` followed by `Find("url")`
  and, per element, the texts of `Find("loc")` and `Find("lastmod")`. -/
  urlElements : GoString → Except Error (List SitemapEntry)
  /-- On a page body, `goquery.NewDocumentFromReader` followed by `Find("script")`:
  the text of every script element, in document order. -/
  scriptTexts : GoString → Except Error (List GoString)
  /-- The call `json.Unmarshal(data, &rawJSON.str)`: the string left in the target
  and the error. -/
  unmarshalString : GoString → GoString × Option Error
  /-- The call `json.Unmarshal(data, &wrapper)`: the wrapper as the decoder left it
  (it may be partly filled when decoding fails) and the error. -/
  unmarshalWrapper : GoString → PostWrapper × Option Error
  /-- On a body fragment, `goquery.NewDocumentFromReader` followed by `Find("img")`:
  the `src` attribute of every image element that has one. -/
  imgSrc : GoString → Except Error (List GoString)
  /-- The function `filepath.Join` on two elements. -/
  pathJoin : GoString → GoString → GoString
  /-- The function `http.Get`: the body of the response. -/
  httpGet : GoString → Except Error GoString
  /-- The error of `os.Create` on a path, if any. -/
  createErr : GoString → Option Error
  /-- The error of `io.Copy` of the response of a URL, if any. -/
  copyErr : GoString → Option Error
  /-- The error of `os.OpenFile` on the log file in append-create mode, if any,
  given the content of the file (`none`: it does not exist). -/
  openLogErr : Option GoString → Option Error
  /-- The failure, if any, of writing the given bytes to the log file and flushing
  them: the number of bytes that reached the file, and the error. -/
  writeLogErr : Option GoString → GoString → Option (Nat × Error)
  /-- The order in which a `range` statement visits the entries of a map. -/
  rangeOrder : StringMap → StringMap
  /-- A `range` statement visits every entry once. -/
  rangeOrder_perm : ∀ m, (rangeOrder m).Perm m

/-- The receiver `e *Extractor` together with the part of the outside world its
methods act on. -/
structure State where
  /-- The set `e.downloadedPosts` (a `map[string]struct{}`), as its keys. -/
  downloadedPosts : List GoString
  /-- The content of the file named `e.logFile`; `none` when it does not exist. -/
  logFile : Option GoString
  /-- The page URLs passed to `e.fetcher.FetchURL` so far. -/
  fetched : List GoString
  /-- The paths of the media files created so far. -/
  created : List GoString
deriving DecidableEq, Repr

/-- `WriteLogFile` of `utils.go`, on the content of the file it is given (`none`:
the file does not exist; `O_APPEND|O_CREATE` creates it): the new content and
the error.  When the file cannot be opened nothing is written; otherwise every
element of `downloadedPosts` followed by a line feed is appended, or, when the
write fails, only the bytes that reached the file. -/
def WriteLogFile (env : Env) (logFile : Option GoString) (downloadedPosts : List GoString) :
    Option GoString × Option Error :=
  match env.openLogErr logFile with
  | some err => (logFile, some err)
  | none =>
    match env.writeLogErr logFile
        (downloadedPosts.map (fun post => post ++ bytes "\n")).flatten with
    | some (n, err) =>
      (some (logFile.getD [] ++
        ((downloadedPosts.map (fun post => post ++ bytes "\n")).flatten).take n), some err)
    | none =>
      (some (logFile.getD [] ++ (downloadedPosts.map (fun post => post ++ bytes "\n")).flatten),
        none)

/-- `NewExtractor`, on the content of the log file: the extractor, with the
ledger read from the file, or the error of `ReadLogFile`. -/
def NewExtractor (logFile : Option GoString) : Option State × Option Error :=
  match ReadLogFile logFile with
  | (_, some err) => (none, some err)
  | (downloadedPosts, none) =>
    (some { downloadedPosts := downloadedPosts, logFile := logFile, fetched := [], created := [] },
      none)

/-- `RawPost.ToPost`. -/
def RawPost.ToPost (env : Env) (r : RawPost) : Post × Option Error :=
  match env.unmarshalWrapper r.str with
  | (_, some err) => (Post.zero, some err)
  | (wrapper, none) => (wrapper.Post, none)

/-- `findScriptContent`, on the texts of the script elements: the first one that
contains both `window._preloads` and `JSON.parse(`, else the empty string. -/
def findScriptContent : List GoString → GoString
  | [] => []
  | s :: rest =>
    if Contains s (bytes "window._preloads") && Contains s (bytes "JSON.parse(") then s
    else findScriptContent rest

/-- `extractJSONString`. -/
def extractJSONString (scriptContent : GoString) : Outcome (GoString × Option Error) :=
  let start := Index scriptContent (bytes "JSON.parse(\"")
  let end' := LastIndex scriptContent (bytes "\")")
  if start = -1 ∨ end' = -1 ∨ start ≥ end' then
    .ret ([], some "failed to extract JSON string")
  else
    match slice scriptContent (start + ((bytes "JSON.parse(\"").length : Int)) end' with
    | .ret js => .ret (js, none)
    | .panic msg => .panic msg

/-- `extractPostID`: the first submatch of the leftmost match of the regular
expression `/p/([^/]+)`, or the empty string when there is no match. -/
def extractPostID : GoString → GoString
  | [] => []
  | c :: s =>
    if (bytes "/p/").isPrefixOf (c :: s) ∧ ((c :: s).drop 3).takeWhile (fun b => b ≠ 47) ≠ [] then
      ((c :: s).drop 3).takeWhile (fun b => b ≠ 47)
    else extractPostID s

/-- `Post.ExtractMedia`. -/
def Post.ExtractMedia (env : Env) (p : Post) : List GoString × Option Error :=
  match env.imgSrc p.BodyHTML with
  | .error err => ([], some err)
  | .ok mediaUrls => (mediaUrls, none)

/-- The slice `validExtensions` of `cleanFileName`. -/
def validExtensions : List GoString :=
  [bytes ".jpeg", bytes ".jpg", bytes ".png", bytes ".gif"]

/-- `cleanFileName`. -/
def cleanFileName (mediaUrl : GoString) : GoString :=
  let parsedUrl :=
    match PathUnescape mediaUrl with
    | (_, some _) => mediaUrl
    | (unescaped, none) => unescaped
  let segments := Split parsedUrl (bytes "/") (by decide)
  let fileName := segments.getLastD []
  if validExtensions.any (fun ext => HasSuffix fileName ext) then fileName
  else fileName ++ bytes ".jpg"

/-- The loop of `DownloadMedia`: `downloadedFiles` is the map built so far,
`created` the files created so far. -/
def downloadLoop (env : Env) (outputFolder : GoString) :
    List GoString → StringMap → List GoString → (StringMap × Option Error) × List GoString
  | [], downloadedFiles, created => ((downloadedFiles, none), created)
  | mediaUrl :: rest, downloadedFiles, created =>
    match env.httpGet mediaUrl with
    | .error err => (([], some ("failed to download media: " ++ err)), created)
    | .ok _ =>
      let fileName := cleanFileName mediaUrl
      let outputPath := env.pathJoin outputFolder fileName
      match env.createErr outputPath with
      | some err => (([], some ("failed to create media file: " ++ err)), created)
      | none =>
        match env.copyErr mediaUrl with
        | some err => (([], some ("failed to save media file: " ++ err)), created ++ [outputPath])
        | none =>
          downloadLoop env outputFolder rest (downloadedFiles.set mediaUrl fileName)
            (created ++ [outputPath])

/-- `DownloadMedia`: the map from media URL to file name and the error, and the
files created. -/
def DownloadMedia (env : Env) (urls : List GoString) (outputFolder : GoString)
    (created : List GoString) : (StringMap × Option Error) × List GoString :=
  downloadLoop env outputFolder urls [] created

/-- `Post.ReplaceMediaURLs`, given the entries of `downloadedFiles` in the order
in which the `range` statement visits them: the new `BodyHTML`. -/
def ReplaceMediaURLs (BodyHTML : GoString) : StringMap → GoString
  | [] => BodyHTML
  | (originalURL, fileName) :: rest =>
    ReplaceMediaURLs (ReplaceAll BodyHTML originalURL fileName) rest

/-! ## `extractor.go`: the extractor -/

/-- `Extractor.ExtractPost`: what the call yields, and the state it leaves.
(`os.MkdirAll`, whose result the code ignores, is left out; the error of
`WriteLogFile` is ignored as in the code.) -/
def ExtractPost (env : Env) (e : State) (pageUrl outputFolder : GoString) (force : Bool) :
    Outcome (Post × Option Error) × State :=
  let postID := extractPostID pageUrl
  if postID ∈ e.downloadedPosts ∧ force = false then
    (.ret (Post.zero, none), e)
  else
    let e1 : State := { e with fetched := e.fetched ++ [pageUrl] }
    match env.FetchURL pageUrl with
    | .error err => (.ret (Post.zero, some ("failed to fetch page: " ++ err)), e1)
    | .ok body =>
      match env.scriptTexts body with
      | .error err => (.ret (Post.zero, some ("failed to fetch page: " ++ err)), e1)
      | .ok scripts =>
        let scriptContent := findScriptContent scripts
        if scriptContent = [] then
          (.ret (Post.zero, some "failed to fetch page: script content not found"), e1)
        else
          match extractJSONString scriptContent with
          | .panic msg => (.panic msg, e1)
          | .ret (_, some err) => (.ret (Post.zero, some ("failed to fetch page: " ++ err)), e1)
          | .ret (jsonString, none) =>
            match env.unmarshalString (bytes "\"" ++ jsonString ++ bytes "\"") with
            | (_, some err) => (.ret (Post.zero, some ("failed to fetch page: " ++ err)), e1)
            | (rawStr, none) =>
              match RawPost.ToPost env { str := rawStr } with
              | (_, some err) => (.ret (Post.zero, some ("failed to fetch page: " ++ err)), e1)
              | (p, none) =>
                match p.ExtractMedia env with
                | (_, some err) =>
                  (.ret (Post.zero, some ("failed to extract media: " ++ err)), e1)
                | (mediaUrls, none) =>
                  let postFolder := env.pathJoin outputFolder p.Slug
                  match DownloadMedia env mediaUrls postFolder e1.created with
                  | ((_, some err), created) =>
                    (.ret (Post.zero, some ("failed to download media: " ++ err)),
                      { e1 with created := created })
                  | ((downloadedFiles, none), created) =>
                    let p' : Post :=
                      { p with BodyHTML := ReplaceMediaURLs p.BodyHTML (env.rangeOrder downloadedFiles) }
                    (.ret (p', none),
                      { e1 with
                        created := created
                        downloadedPosts := e1.downloadedPosts.insert postID
                        logFile := (WriteLogFile env e1.logFile [postID]).1 })

/-- The callback loop `doc.Find("url").EachWithBreak(...)` of `GetAllPostsURLs`.
`done i` tells whether `ctx.Done()` is ready when it is polled at element `i`;
`urls` is the slice collected so far. -/
def eachUrl (done : Nat → Bool) (f : DateFilterFunc) :
    List SitemapEntry → Nat → List GoString → List GoString
  | [], _, urls => urls
  | s :: rest, i, urls =>
    if done i then urls
    else if !Contains s.loc (bytes "/p/") then eachUrl done f rest (i + 1) urls
    else
      match f with
      | some g =>
        if !g s.lastmod then eachUrl done f rest (i + 1) urls
        else eachUrl done f rest (i + 1) (urls ++ [s.loc])
      | none => eachUrl done f rest (i + 1) (urls ++ [s.loc])

/-- `Extractor.GetAllPostsURLs`: the returned slice and error. -/
def GetAllPostsURLs (env : Env) (done : Nat → Bool) (pubUrl : GoString)
    (f : DateFilterFunc) : List GoString × Option Error :=
  match env.sitemapURL pubUrl with
  | .error err => ([], some err)
  | .ok u =>
    match env.FetchURL u with
    | .error err => ([], some err)
    | .ok body =>
      match env.urlElements body with
      | .error err => ([], some err)
      | .ok entries => (eachUrl done f entries 0 [], none)

/-! ## `extractor.go`: the batch runner

`ExtractAllPosts` starts one goroutine per URL.  The goroutines share the map
`e.downloadedPosts` and the slice `newDownloads`, and take no lock.  A run is an
interleaving of the steps of the goroutines, given by a schedule: the list of
the task numbers in the order in which they take a step.  A step holds at most
one access to the shared map or slice.

A look-up in the map is one step.  An assignment to the map is two steps, its
beginning and its end: the Go runtime marks a map as being written for the
duration of an assignment (the flag `hashWriting` of `runtime/map.go`), and ends
the program with the fatal error `concurrent map writes` when an assignment
begins on a marked map, and with `concurrent map read and map write` when a
look-up meets the mark; a look-up in a map without entries returns before it
tests the mark.  The key is in the map from the end of the assignment on.  The
statement `newDownloads = append(newDownloads, postID)` is two steps as well:
the read of the slice, and the write of the extended slice.

The part of `ExtractPost` that touches neither the map nor the slice (the fetch,
the decoding, the media download) is one step; so are the call of `WriteLogFile`
and the send on the buffered channel.  An unrecovered panic in a goroutine ends
the program. -/

/-- The part of `Extractor.ExtractPost` between the look-up of the identifier
(line 228) and the assignment to the ledger (line 279): what it hands on, and
the state it leaves. -/
def extractBody (env : Env) (e : State) (pageUrl outputFolder : GoString) :
    Outcome (Post × Option Error) × State :=
  let e1 : State := { e with fetched := e.fetched ++ [pageUrl] }
  match env.FetchURL pageUrl with
  | .error err => (.ret (Post.zero, some ("failed to fetch page: " ++ err)), e1)
  | .ok body =>
    match env.scriptTexts body with
    | .error err => (.ret (Post.zero, some ("failed to fetch page: " ++ err)), e1)
    | .ok scripts =>
      let scriptContent := findScriptContent scripts
      if scriptContent = [] then
        (.ret (Post.zero, some "failed to fetch page: script content not found"), e1)
      else
        match extractJSONString scriptContent with
        | .panic msg => (.panic msg, e1)
        | .ret (_, some err) => (.ret (Post.zero, some ("failed to fetch page: " ++ err)), e1)
        | .ret (jsonString, none) =>
          match env.unmarshalString (bytes "\"" ++ jsonString ++ bytes "\"") with
          | (_, some err) => (.ret (Post.zero, some ("failed to fetch page: " ++ err)), e1)
          | (rawStr, none) =>
            match RawPost.ToPost env { str := rawStr } with
            | (_, some err) => (.ret (Post.zero, some ("failed to fetch page: " ++ err)), e1)
            | (p, none) =>
              match p.ExtractMedia env with
              | (_, some err) =>
                (.ret (Post.zero, some ("failed to extract media: " ++ err)), e1)
              | (mediaUrls, none) =>
                let postFolder := env.pathJoin outputFolder p.Slug
                match DownloadMedia env mediaUrls postFolder e1.created with
                | ((_, some err), created) =>
                  (.ret (Post.zero, some ("failed to download media: " ++ err)),
                    { e1 with created := created })
                | ((downloadedFiles, none), created) =>
                  (.ret ({ p with
                      BodyHTML := ReplaceMediaURLs p.BodyHTML (env.rangeOrder downloadedFiles) },
                    none),
                    { e1 with created := created })

/-- Where a goroutine of `ExtractAllPosts` stands. -/
inductive TaskPC where
  /-- Before the look-up of line 355. -/
  | start
  /-- Before the call of `ExtractPost`, which begins with the look-up of line 228. -/
  | checked
  /-- In `ExtractPost`, before the fetch of line 233. -/
  | fetching
  /-- In `ExtractPost`, before the assignment of line 279, with the post extracted. -/
  | storing (p : Post)
  /-- In the assignment of line 279: the map is marked as being written. -/
  | stored (p : Post)
  /-- In `ExtractPost`, before the call of `WriteLogFile` of line 280. -/
  | logging (p : Post)
  /-- Back from `ExtractPost` with its two results, before the test of line 360. -/
  | returned (post : Post) (err : Option Error)
  /-- In the assignment of line 361: the map is marked as being written. -/
  | marking (post : Post)
  /-- Before the `append` of line 362 reads `newDownloads`. -/
  | appending (post : Post)
  /-- In line 362, with the slice that `append` has read, before the extended slice
  is written to `newDownloads`. -/
  | appended (post : Post) (snapshot : List GoString)
  /-- Before the send of line 364. -/
  | sending (post : Post) (err : Option Error)
  /-- After the goroutine has returned. -/
  | finished
deriving DecidableEq, Repr

/-- The state of a run of `ExtractAllPosts`. -/
structure Batch where
  /-- The extractor and the outside world. -/
  e : State
  /-- Whether the runtime has `e.downloadedPosts` marked as being written. -/
  writing : Bool
  /-- Where each goroutine stands, by position of its URL in `urls`. -/
  pcs : List TaskPC
  /-- The slice `newDownloads`. -/
  newDownloads : List GoString
  /-- The values sent on `ch`, oldest first, each with the number of the task
  that sent it. -/
  ch : List (Nat × ExtractResult)
  /-- Whether `ch` has been closed. -/
  closed : Bool
  /-- The message of the panic or fatal error that ended the program, if any. -/
  crashed : Option String
deriving DecidableEq, Repr

/-- One step of goroutine `i`. -/
def stepTask (env : Env) (urls : List GoString) (outputFolder : GoString) (force : Bool)
    (b : Batch) (i : Nat) : Batch :=
  if b.crashed ≠ none then b
  else
    match urls[i]?, b.pcs[i]? with
    | some url, some TaskPC.start =>
      if b.e.downloadedPosts ≠ [] ∧ b.writing = true then
        { b with crashed := some "concurrent map read and map write" }
      else if extractPostID url ∈ b.e.downloadedPosts ∧ force = false then
        { b with pcs := b.pcs.set i TaskPC.finished }
      else
        { b with pcs := b.pcs.set i TaskPC.checked }
    | some url, some TaskPC.checked =>
      if b.e.downloadedPosts ≠ [] ∧ b.writing = true then
        { b with crashed := some "concurrent map read and map write" }
      else if extractPostID url ∈ b.e.downloadedPosts ∧ force = false then
        { b with pcs := b.pcs.set i (TaskPC.returned Post.zero none) }
      else
        { b with pcs := b.pcs.set i TaskPC.fetching }
    | some url, some TaskPC.fetching =>
      match extractBody env b.e url outputFolder with
      | (.panic msg, e') => { b with e := e', crashed := some msg }
      | (.ret (post, some err), e') =>
        { b with e := e', pcs := b.pcs.set i (TaskPC.returned post (some err)) }
      | (.ret (p, none), e') => { b with e := e', pcs := b.pcs.set i (TaskPC.storing p) }
    | some _, some (TaskPC.storing p) =>
      if b.writing = true then { b with crashed := some "concurrent map writes" }
      else { b with writing := true, pcs := b.pcs.set i (TaskPC.stored p) }
    | some url, some (TaskPC.stored p) =>
      { b with
        e := { b.e with downloadedPosts := b.e.downloadedPosts.insert (extractPostID url) }
        writing := false
        pcs := b.pcs.set i (TaskPC.logging p) }
    | some url, some (TaskPC.logging p) =>
      { b with
        e := { b.e with logFile := (WriteLogFile env b.e.logFile [extractPostID url]).1 }
        pcs := b.pcs.set i (TaskPC.returned p none) }
    | some url, some (TaskPC.returned post err) =>
      if err = none ∧ extractPostID url ≠ [] then
        if b.writing = true then { b with crashed := some "concurrent map writes" }
        else { b with writing := true, pcs := b.pcs.set i (TaskPC.marking post) }
      else
        { b with pcs := b.pcs.set i (TaskPC.sending post err) }
    | some url, some (TaskPC.marking post) =>
      { b with
        e := { b.e with downloadedPosts := b.e.downloadedPosts.insert (extractPostID url) }
        writing := false
        pcs := b.pcs.set i (TaskPC.appending post) }
    | some _, some (TaskPC.appending post) =>
      { b with pcs := b.pcs.set i (TaskPC.appended post b.newDownloads) }
    | some url, some (TaskPC.appended post snapshot) =>
      { b with
        newDownloads := snapshot ++ [extractPostID url]
        pcs := b.pcs.set i (TaskPC.sending post none) }
    | some _, some (TaskPC.sending post err) =>
      { b with
        ch := b.ch ++ [(i, { Post := post, Err := err })]
        pcs := b.pcs.set i TaskPC.finished }
    | _, _ => b

/-- The state of a run when the goroutines are started. -/
def Batch.init (e : State) (urls : List GoString) : Batch :=
  { e := e, writing := false, pcs := List.replicate urls.length TaskPC.start, newDownloads := [],
    ch := [], closed := false, crashed := none }

/-- The goroutines of `ExtractAllPosts` up to the return of `wg.Wait()`: they
take steps as the schedule says, and those the schedule left unfinished are then
run to their end one after the other; a goroutine is at its end after eleven
steps at most. -/
def runTasks (env : Env) (e : State) (urls : List GoString) (outputFolder : GoString)
    (force : Bool) (schedule : List Nat) : Batch :=
  ((List.range urls.length).flatMap (fun i => List.replicate 11 i)).foldl
    (stepTask env urls outputFolder force)
    (schedule.foldl (stepTask env urls outputFolder force) (Batch.init e urls))

/-- The statement `close(ch)` that follows `wg.Wait()`. -/
def closeChannel (b : Batch) : Batch :=
  if b.crashed ≠ none then b else { b with closed := true }

/-- The statement `WriteLogFile(e.logFile, newDownloads)` that follows `close(ch)`;
its error is ignored. -/
def writeNewDownloads (env : Env) (b : Batch) : Batch :=
  if b.crashed ≠ none then b
  else { b with e := { b.e with logFile := (WriteLogFile env b.e.logFile b.newDownloads).1 } }

/-- `Extractor.ExtractAllPosts` under a schedule, when the goroutine it starts has
run to its end: once `wg.Wait()` has returned, `ch` is closed, and then
`newDownloads` is written to the log file.  The receiver can see the channel
closed, as in `closeChannel (runTasks ..)`, before that write has been made:
nothing waits for it. -/
def ExtractAllPosts (env : Env) (e : State) (urls : List GoString) (outputFolder : GoString)
    (force : Bool) (schedule : List Nat) : Batch :=
  writeNewDownloads env (closeChannel (runTasks env e urls outputFolder force schedule))

/-- Whether the page behind `pageUrl` makes `ExtractPost` panic. -/
def pagePanics (env : Env) (pageUrl : GoString) : Bool :=
  match env.FetchURL pageUrl with
  | .error _ => false
  | .ok body =>
    match env.scriptTexts body with
    | .error _ => false
    | .ok scripts =>
      match extractJSONString (findScriptContent scripts) with
      | .panic _ => findScriptContent scripts ≠ []
      | .ret _ => false

/-! ## A concrete publication

A small publication, used to evaluate the code. -/

/-- The page of a post whose embedded payload is `text`: one script element. -/
def pageWith (text : GoString) : GoString :=
  bytes "<script>" ++ text ++ bytes "</script>"

/-- A publication at `https://x` with five pages: `/p/a` embeds the payload of a
post with slug `a`; `/p/b` has the script `window._preloads = JSON.parse(")`;
`/p/c` embeds a truncated payload, an opening brace alone; `/p/d` a payload with
the invalid escape `\x`; `/p/e` a payload whose `id` is `7` and whose `slug` is a
number, which the decoder rejects after it has stored the `id`. -/
def demoEnv : Env where
  sitemapURL := fun pubUrl => .ok (pubUrl ++ bytes "/sitemap.xml")
  FetchURL := fun u =>
    if u = bytes "https://x/sitemap.xml" then .ok (bytes "<urlset>") else
    if u = bytes "https://x/p/a" then .ok (pageWith
        (bytes "window._preloads = JSON.parse(\"\x7b\\\"post\\\":\x7b\\\"slug\\\":\\\"a\\\"\x7d\x7d\")")) else
    if u = bytes "https://x/p/b" then .ok (pageWith (bytes "window._preloads = JSON.parse(\")")) else
    if u = bytes "https://x/p/c" then .ok (pageWith (bytes "window._preloads = JSON.parse(\"\x7b\")")) else
    if u = bytes "https://x/p/d" then .ok (pageWith (bytes "window._preloads = JSON.parse(\"\\x\")")) else
    if u = bytes "https://x/p/e" then .ok (pageWith
        (bytes "window._preloads = JSON.parse(\"\x7b\\\"post\\\":\x7b\\\"id\\\":7,\\\"slug\\\":5\x7d\x7d\")")) else
    .error "404"
  urlElements := fun _ =>
    .ok [ { loc := bytes "https://x/p/a", lastmod := bytes "2024-01-10" },
          { loc := bytes "https://x/about", lastmod := bytes "2024-02-10" },
          { loc := bytes "https://x/p/b", lastmod := bytes "2024-03-10" } ]
  scriptTexts := fun body =>
    if (bytes "<script>").isPrefixOf body ∧ (bytes "</script>").isSuffixOf body then
      .ok [(body.drop 8).take (body.length - 17)]
    else .ok []
  unmarshalString := fun data =>
    if data = bytes "\"\x7b\\\"post\\\":\x7b\\\"slug\\\":\\\"a\\\"\x7d\x7d\"" then
      (bytes "\x7b\"post\":\x7b\"slug\":\"a\"\x7d\x7d", none)
    else if data = bytes "\"\x7b\\\"post\\\":\x7b\\\"id\\\":7,\\\"slug\\\":5\x7d\x7d\"" then
      (bytes "\x7b\"post\":\x7b\"id\":7,\"slug\":5\x7d\x7d", none)
    else if data = bytes "\"\x7b\"" then (bytes "\x7b", none)
    else ([], some "invalid character in string escape code")
  unmarshalWrapper := fun data =>
    if data = bytes "\x7b\"post\":\x7b\"slug\":\"a\"\x7d\x7d" then
      ({ Post := { Post.zero with Slug := bytes "a" } }, none)
    else if data = bytes "\x7b\"post\":\x7b\"id\":7,\"slug\":5\x7d\x7d" then
      ({ Post := { Post.zero with Id := 7 } },
        some "json: cannot unmarshal number into Go struct field Post.post.slug of type string")
    else ({ Post := Post.zero }, some "unexpected end of JSON input")
  imgSrc := fun _ => .ok []
  pathJoin := fun dir name => dir ++ bytes "/" ++ name
  httpGet := fun _ => .error "unsupported protocol scheme"
  createErr := fun _ => none
  copyErr := fun _ => none
  openLogErr := fun _ => none
  writeLogErr := fun _ _ => none
  rangeOrder := fun m => m
  rangeOrder_perm := fun m => List.Perm.refl m

/-- An extractor with an empty ledger and no log file yet. -/
def freshState : State :=
  { downloadedPosts := [], logFile := none, fetched := [], created := [] }

/-- An extractor whose ledger, loaded from the log file, holds the identifier `a`. -/
def seenState : State :=
  { downloadedPosts := [bytes "a"], logFile := some (bytes "a\n"), fetched := [], created := [] }

/-! ## Auxiliary notions used in the statements -/

/-- Whether `GetAllPostsURLs` keeps a sitemap element. -/
def keeps (f : DateFilterFunc) (s : SitemapEntry) : Bool :=
  Contains s.loc (bytes "/p/") &&
    (match f with
     | none => true
     | some g => g s.lastmod)

/-- Go's `strings.Join(elems, sep)`. -/
def Join : List GoString → GoString → GoString
  | [], _ => []
  | [p], _ => p
  | p :: q :: rest, sep => p ++ sep ++ Join (q :: rest) sep

/-- A post body with one image, followed by text in which the address of the
image is preceded by a copy of its own directory part. -/
def nestedBody : GoString :=
  bytes "<img src=\"http://h/a.png\">http://h/http://h/a.png"

/-- An extractor made by `NewExtractor` from a log file that holds the three bytes
`abc` and no line feed. -/
def unterminatedState : State :=
  { downloadedPosts := [bytes "abc"], logFile := some (bytes "abc"), fetched := [], created := [] }

/-- An extractor made by `NewExtractor` from a log file that holds the two lines
`z` and `y`, the second one ending with a carriage return and a line feed. -/
def loadedState : State :=
  { downloadedPosts := [bytes "y", bytes "z"], logFile := some (bytes "z\ny\r\n"), fetched := [],
    created := [] }

/-- The concrete publication when the log file is to be in a directory that does
not exist: the file cannot be created. -/
def missingDirEnv : Env :=
  { demoEnv with
    openLogErr := fun _ => some "open logs/downloaded_posts.log: no such file or directory" }

/-- The pieces between the occurrences of `old` that a search from left to right
finds one after the other in a text.  Every piece but the last is followed by
`old`, and `old` begins nowhere earlier: it does not occur in the piece followed
by `old` without its last byte.  The last piece does not contain `old`. -/
def LeftmostPieces (old : GoString) : List GoString → Prop
  | [] => False
  | [p] => ¬ old <:+: p
  | p :: q :: rest => ¬ old <:+: p ++ old.dropLast ∧ LeftmostPieces old (q :: rest)

/-- The body of a goroutine of `ExtractAllPosts` (lines 353 to 364) run without
interruption for the URL `u`, as the only task of a run that starts in `e`: the
state of the run at its end. -/
def runAlone (env : Env) (e : State) (u outputFolder : GoString) (force : Bool) : Batch :=
  if extractPostID u ∈ e.downloadedPosts ∧ force = false then
    { Batch.init e [u] with pcs := [TaskPC.finished] }
  else
    match ExtractPost env e u outputFolder force with
    | (.panic msg, e') =>
      { Batch.init e [u] with e := e', pcs := [TaskPC.fetching], crashed := some msg }
    | (.ret (post, err), e') =>
      if err = none ∧ extractPostID u ≠ [] then
        { Batch.init e [u] with
          e := { e' with downloadedPosts := e'.downloadedPosts.insert (extractPostID u) }
          pcs := [TaskPC.finished]
          newDownloads := [extractPostID u]
          ch := [(0, { Post := post, Err := err })] }
      else
        { Batch.init e [u] with
          e := e'
          pcs := [TaskPC.finished]
          ch := [(0, { Post := post, Err := err })] }

/-- The publication `demoEnv` with one more page: `/p/f` serves what `/p/a` serves. -/
def twinEnv : Env :=
  { demoEnv with
    FetchURL := fun u =>
      if u = bytes "https://x/p/f" then demoEnv.FetchURL (bytes "https://x/p/a")
      else demoEnv.FetchURL u }

/-- How far a goroutine has come: the number of steps it has taken on its longest
path, eleven at its end. -/
def TaskPC.rank : TaskPC → Nat
  | TaskPC.start => 0
  | TaskPC.checked => 1
  | TaskPC.fetching => 2
  | TaskPC.storing _ => 3
  | TaskPC.stored _ => 4
  | TaskPC.logging _ => 5
  | TaskPC.returned _ _ => 6
  | TaskPC.marking _ => 7
  | TaskPC.appending _ => 8
  | TaskPC.appended _ _ => 9
  | TaskPC.sending _ _ => 10
  | TaskPC.finished => 11

/-! # Theorems -/

/-! ## Go strings: order and search -/

theorem strLess_iff_lex (a b : GoString) :
    strLess a b = true ↔ List.Lex (fun x y : Nat => x < y) a b := by
  induction a generalizing b with
  | nil =>
    cases b with
    | nil => simp [strLess, List.Lex.not_nil_right]
    | cons y ys => simp [strLess, List.Lex.nil]
  | cons x xs ih =>
    cases b with
    | nil => simp [strLess, List.Lex.not_nil_right]
    | cons y ys =>
      unfold strLess
      by_cases hxy : x < y
      · simp [hxy, List.Lex.rel hxy]
      · by_cases hyx : y < x
        · simp only [hxy, hyx, if_false, if_true]
          constructor
          · intro h; cases h
          · intro h
            cases h with
            | cons h' => exact absurd hyx (lt_irrefl _)
            | rel h' => exact absurd h' hxy
        · have hEq : x = y := by omega
          subst hEq
          simp only [hxy, if_false]
          rw [ih ys]
          exact (List.Lex.cons_iff).symm

theorem isPrefixOf_iff (p s : GoString) : p.isPrefixOf s = true ↔ p <+: s := by
  simp

theorem indexFrom_none (sub : GoString) (s : GoString) (i : Nat) :
    indexFrom sub s i = none ↔ ¬ sub <:+: s := by
  induction s generalizing i with
  | nil =>
    unfold indexFrom
    by_cases h : sub = []
    · simp [h]
    · simp [h]
  | cons c s ih =>
    unfold indexFrom
    by_cases hp : sub.isPrefixOf (c :: s) = true
    · have hp' : sub <+: c :: s := (isPrefixOf_iff _ _).1 hp
      rw [if_pos hp]
      constructor
      · intro h; cases h
      · intro h; exact absurd hp'.isInfix h
    · have hp' : ¬ sub <+: c :: s := fun h => hp ((isPrefixOf_iff _ _).2 h)
      rw [if_neg hp, ih (i + 1)]
      constructor
      · intro h hin
        rcases (List.infix_cons_iff).1 hin with h1 | h1
        · exact hp' h1
        · exact h h1
      · intro h hin
        exact h ((List.infix_cons_iff).2 (Or.inr hin))

theorem Contains_iff (s sub : GoString) : Contains s sub = true ↔ sub <:+: s := by
  unfold Contains Index
  cases h : indexFrom sub s 0 with
  | none =>
    have := (indexFrom_none sub s 0).1 h
    simp [this]
  | some j =>
    have : ¬ indexFrom sub s 0 = none := by simp [h]
    have hin : sub <:+: s := by
      by_contra hc
      exact this ((indexFrom_none sub s 0).2 hc)
    simp [hin]

/-! ## Sitemap discovery -/

theorem eachUrl_not_done (f : DateFilterFunc) (entries : List SitemapEntry) (i : Nat)
    (urls : List GoString) :
    eachUrl (fun _ => false) f entries i urls
      = urls ++ (entries.filter (keeps f)).map SitemapEntry.loc := by
  induction entries generalizing i urls with
  | nil => simp [eachUrl]
  | cons s rest ih =>
    unfold eachUrl
    cases hc : Contains s.loc (bytes "/p/") with
    | false => simp [hc, keeps, ih]
    | true =>
      cases f with
      | none => simp [hc, keeps, ih]
      | some g =>
        cases hg : g s.lastmod with
        | false => simp [hc, hg, keeps, ih]
        | true => simp [hc, hg, keeps, ih]

/-- C1. `MakeDateFilterFunc(before, after)` implements exclusive bounds in the
bytewise string order: with both bounds non-empty the predicate holds exactly
when `after < date < before`; with only `before`, exactly when `date < before`;
with only `after`, exactly when `date > after`; with both empty the filter is
nil, and with a nil filter `GetAllPostsURLs` (not cancelled) returns the location
of every element that contains `/p/`, whatever its date. -/
theorem MakeDateFilterFunc_exclusive_bounds (env : Env) (done : Nat → Bool)
    (pubUrl u body : GoString) (entries : List SitemapEntry)
    (b : Nat) (bs : GoString) (a : Nat) (as : GoString)
    (hu : env.sitemapURL pubUrl = .ok u) (hf : env.FetchURL u = .ok body)
    (he : env.urlElements body = .ok entries) (hd : ∀ i, done i = false) :
    (∃ f, MakeDateFilterFunc (b :: bs) (a :: as) = some f ∧
      ∀ date, (f date = true ↔
        List.Lex (fun x y : Nat => x < y) (a :: as) date ∧
        List.Lex (fun x y : Nat => x < y) date (b :: bs))) ∧
    (∃ f, MakeDateFilterFunc (b :: bs) [] = some f ∧
      ∀ date, (f date = true ↔ List.Lex (fun x y : Nat => x < y) date (b :: bs))) ∧
    (∃ f, MakeDateFilterFunc [] (a :: as) = some f ∧
      ∀ date, (f date = true ↔ List.Lex (fun x y : Nat => x < y) (a :: as) date)) ∧
    MakeDateFilterFunc [] [] = none ∧
    GetAllPostsURLs env done pubUrl (MakeDateFilterFunc [] [])
      = ((entries.filter (fun s => Contains s.loc (bytes "/p/"))).map SitemapEntry.loc, none) := by
  refine ⟨⟨fun date => strLess (a :: as) date && strLess date (b :: bs),
      by simp [MakeDateFilterFunc], ?_⟩,
    ⟨fun date => strLess date (b :: bs), by simp [MakeDateFilterFunc], ?_⟩,
    ⟨fun date => strLess (a :: as) date, by simp [MakeDateFilterFunc], ?_⟩,
    by simp [MakeDateFilterFunc], ?_⟩
  · intro date
    simp only [Bool.and_eq_true, strLess_iff_lex]
  · intro date
    simp only [strLess_iff_lex]
  · intro date
    simp only [strLess_iff_lex]
  · have hnil : MakeDateFilterFunc [] [] = none := by simp [MakeDateFilterFunc]
    have hdone : done = fun _ => false := funext hd
    simp only [GetAllPostsURLs, hu, hf, he, hnil, hdone]
    rw [eachUrl_not_done]
    have hk : keeps none = fun s => Contains s.loc (bytes "/p/") := by
      funext s
      simp [keeps]
    rw [hk]
    rfl

theorem MakeDateFilterFunc_exclusive_bounds_witness :
    demoEnv.sitemapURL (bytes "https://x") = .ok (bytes "https://x/sitemap.xml") ∧
    (∃ f, MakeDateFilterFunc (bytes "2024-03-10") (bytes "2024-01-10") = some f ∧
      f (bytes "2024-02-10") = true ∧ f (bytes "2024-03-10") = false ∧
      f (bytes "2024-01-10") = false) ∧
    GetAllPostsURLs demoEnv (fun _ => false) (bytes "https://x") (MakeDateFilterFunc [] [])
      = ([bytes "https://x/p/a", bytes "https://x/p/b"], none) := by
  have h := MakeDateFilterFunc_exclusive_bounds demoEnv (fun _ => false) (bytes "https://x")
    (bytes "https://x/sitemap.xml") (bytes "<urlset>")
    [ { loc := bytes "https://x/p/a", lastmod := bytes "2024-01-10" },
      { loc := bytes "https://x/about", lastmod := bytes "2024-02-10" },
      { loc := bytes "https://x/p/b", lastmod := bytes "2024-03-10" } ]
    50 (bytes "024-03-10") 50 (bytes "024-01-10") rfl rfl rfl
    (fun _ => rfl)
  refine ⟨rfl, ⟨_, rfl, by decide, by decide, by decide⟩, ?_⟩
  rw [h.2.2.2.2]
  decide

/-- C2. For every parsed sitemap and every date filter, when the run is not
cancelled `GetAllPostsURLs` returns, with a nil error, exactly the locations of
the elements whose location contains `/p/` and whose last-modification date
satisfies the filter (all dates when the filter is nil), in the order of the
sitemap; it is the empty list when no element matches. -/
theorem GetAllPostsURLs_filters_in_order (env : Env) (done : Nat → Bool)
    (pubUrl u body : GoString) (entries : List SitemapEntry) (f : DateFilterFunc)
    (hu : env.sitemapURL pubUrl = .ok u) (hf : env.FetchURL u = .ok body)
    (he : env.urlElements body = .ok entries) (hd : ∀ i, done i = false) :
    GetAllPostsURLs env done pubUrl f
      = ((entries.filter (fun s => decide (bytes "/p/" <:+: s.loc) &&
            (match f with
             | none => true
             | some g => g s.lastmod))).map SitemapEntry.loc, none) ∧
    ((∀ s ∈ entries, ¬ (bytes "/p/" <:+: s.loc ∧ ∀ g, f = some g → g s.lastmod = true)) →
      GetAllPostsURLs env done pubUrl f = ([], none)) := by
  have hdone : done = fun _ => false := funext hd
  have hkeeps : (fun s : SitemapEntry => decide (bytes "/p/" <:+: s.loc) &&
            (match f with
             | none => true
             | some g => g s.lastmod)) = keeps f := by
    funext s
    unfold keeps
    congr 1
    rw [Bool.eq_iff_iff]
    simp [Contains_iff]
  have hmain : GetAllPostsURLs env done pubUrl f
      = ((entries.filter (keeps f)).map SitemapEntry.loc, none) := by
    simp only [GetAllPostsURLs, hu, hf, he, hdone]
    rw [eachUrl_not_done]
    simp
  refine ⟨by rw [hmain, hkeeps], ?_⟩
  intro hno
  rw [hmain]
  have : entries.filter (keeps f) = [] := by
    rw [List.filter_eq_nil_iff]
    intro s hs hk
    apply hno s hs
    unfold keeps at hk
    rw [Bool.and_eq_true, Contains_iff] at hk
    refine ⟨hk.1, ?_⟩
    intro g hg
    subst hg
    exact hk.2
  rw [this]
  rfl

theorem GetAllPostsURLs_filters_in_order_witness :
    GetAllPostsURLs demoEnv (fun _ => false) (bytes "https://x")
        (MakeDateFilterFunc (bytes "2024-03-10") [])
      = ([bytes "https://x/p/a"], none) := by
  have h := (GetAllPostsURLs_filters_in_order demoEnv (fun _ => false) (bytes "https://x")
    (bytes "https://x/sitemap.xml") (bytes "<urlset>")
    [ { loc := bytes "https://x/p/a", lastmod := bytes "2024-01-10" },
      { loc := bytes "https://x/about", lastmod := bytes "2024-02-10" },
      { loc := bytes "https://x/p/b", lastmod := bytes "2024-03-10" } ]
    (MakeDateFilterFunc (bytes "2024-03-10") []) rfl rfl rfl
    (fun _ => rfl)).1
  rw [h]
  decide

/-- C9. On the sitemap of the concrete publication, with the cancellation signal
observed at the second element, `GetAllPostsURLs` returns the one location
collected so far together with a nil error. -/
theorem GetAllPostsURLs_cancelled_returns_nil_error :
    GetAllPostsURLs demoEnv (fun i => decide (1 ≤ i)) (bytes "https://x") none
      = ([bytes "https://x/p/a"], none) := by
  decide

/-! ## `ExtractPost` -/

theorem ExtractPost_fetched (env : Env) (e : State) (pageUrl outputFolder : GoString)
    (force : Bool) :
    (ExtractPost env e pageUrl outputFolder force).2.fetched
      = if extractPostID pageUrl ∈ e.downloadedPosts ∧ force = false then e.fetched
        else e.fetched ++ [pageUrl] := by
  unfold ExtractPost
  by_cases hs : extractPostID pageUrl ∈ e.downloadedPosts ∧ force = false
  · rw [if_pos hs, if_pos hs]
  · rw [if_neg hs, if_neg hs]
    dsimp only
    repeat' split
    all_goals rfl

theorem ExtractPost_skip (env : Env) (e : State) (pageUrl outputFolder : GoString)
    (force : Bool) (hs : extractPostID pageUrl ∈ e.downloadedPosts ∧ force = false) :
    ExtractPost env e pageUrl outputFolder force = (.ret (Post.zero, none), e) := by
  unfold ExtractPost
  rw [if_pos hs]

theorem ExtractPost_ledger (env : Env) (e : State) (pageUrl outputFolder : GoString)
    (force : Bool) :
    ((ExtractPost env e pageUrl outputFolder force).2.downloadedPosts = e.downloadedPosts ∧
      (ExtractPost env e pageUrl outputFolder force).2.logFile = e.logFile) ∨
    ((∃ p, (ExtractPost env e pageUrl outputFolder force).1 = .ret (p, none)) ∧
      ¬ (extractPostID pageUrl ∈ e.downloadedPosts ∧ force = false) ∧
      (ExtractPost env e pageUrl outputFolder force).2.downloadedPosts
        = e.downloadedPosts.insert (extractPostID pageUrl) ∧
      (ExtractPost env e pageUrl outputFolder force).2.logFile
        = (WriteLogFile env e.logFile [extractPostID pageUrl]).1) := by
  unfold ExtractPost
  by_cases hs : extractPostID pageUrl ∈ e.downloadedPosts ∧ force = false
  · rw [if_pos hs]
    exact Or.inl ⟨rfl, rfl⟩
  · rw [if_neg hs]
    dsimp only
    repeat' split
    all_goals first
      | exact Or.inl ⟨rfl, rfl⟩
      | exact Or.inr ⟨⟨_, rfl⟩, hs, rfl, rfl⟩

theorem ExtractPost_panic (env : Env) (e : State) (pageUrl outputFolder : GoString)
    (force : Bool) (msg : String)
    (h : (ExtractPost env e pageUrl outputFolder force).1 = .panic msg) :
    pagePanics env pageUrl = true := by
  unfold ExtractPost at h
  unfold pagePanics
  by_cases hs : extractPostID pageUrl ∈ e.downloadedPosts ∧ force = false
  · simp only [hs, and_self, if_true] at h
    cases h
  · simp only [hs, if_false] at h
    repeat' split at h
    all_goals first
      | (cases h; done)
      | simp_all

/-- C3. For every URL and ledger state, `ExtractPost` calls the fetcher (once, on
the page URL) if and only if `force` is true or the identifier derived from the
URL is absent from the in-memory ledger, and otherwise makes no fetch; when the
identifier is present and `force` is false it returns the zero-value `Post` with
a nil error and leaves the extractor, the ledger file included, unchanged. -/
theorem ExtractPost_fetches_iff_forced_or_new (env : Env) (e : State)
    (pageUrl outputFolder : GoString) (force : Bool) :
    ((ExtractPost env e pageUrl outputFolder force).2.fetched = e.fetched ++ [pageUrl] ↔
      (force = true ∨ extractPostID pageUrl ∉ e.downloadedPosts)) ∧
    ((ExtractPost env e pageUrl outputFolder force).2.fetched = e.fetched ↔
      ¬ (force = true ∨ extractPostID pageUrl ∉ e.downloadedPosts)) ∧
    (extractPostID pageUrl ∈ e.downloadedPosts → force = false →
      ExtractPost env e pageUrl outputFolder force = (.ret (Post.zero, none), e)) := by
  have hne : e.fetched ++ [pageUrl] ≠ e.fetched := by
    intro h
    have := congrArg List.length h
    simp at this
  rw [ExtractPost_fetched]
  by_cases hs : extractPostID pageUrl ∈ e.downloadedPosts ∧ force = false
  · rw [if_pos hs]
    refine ⟨⟨fun h => absurd h.symm hne, ?_⟩, ⟨?_, fun _ => rfl⟩,
      fun h1 h2 => ExtractPost_skip env e pageUrl outputFolder force ⟨h1, h2⟩⟩
    · rintro (h | h)
      · rw [hs.2] at h
        cases h
      · exact absurd hs.1 h
    · rintro - (h | h)
      · rw [hs.2] at h
        cases h
      · exact absurd hs.1 h
  · rw [if_neg hs]
    have hrun : force = true ∨ extractPostID pageUrl ∉ e.downloadedPosts := by
      by_cases hm : extractPostID pageUrl ∈ e.downloadedPosts
      · left
        cases force with
        | true => rfl
        | false => exact absurd ⟨hm, rfl⟩ hs
      · exact Or.inr hm
    refine ⟨⟨fun _ => hrun, fun _ => rfl⟩, ⟨fun h => absurd h hne, fun h => absurd hrun h⟩,
      fun h1 h2 => absurd ⟨h1, h2⟩ hs⟩

theorem ExtractPost_fetches_iff_forced_or_new_witness :
    extractPostID (bytes "https://x/p/a") ∈ seenState.downloadedPosts ∧
    ExtractPost demoEnv seenState (bytes "https://x/p/a") (bytes "out") false
      = (.ret (Post.zero, none), seenState) ∧
    (ExtractPost demoEnv seenState (bytes "https://x/p/a") (bytes "out") true).2.fetched
      = [bytes "https://x/p/a"] :=
  ⟨by decide,
    (ExtractPost_fetches_iff_forced_or_new demoEnv seenState (bytes "https://x/p/a")
      (bytes "out") false).2.2 (by decide) rfl,
    (ExtractPost_fetches_iff_forced_or_new demoEnv seenState (bytes "https://x/p/a")
      (bytes "out") true).1.2 (Or.inl rfl)⟩

/-- C5. For every page that is fetched and whose located payload fails to decode,
at the outer JSON string literal or at the inner JSON object, `ExtractPost`
returns a non-nil error together with the zero-value `Post`, whatever the
decoder had filled in, and neither the in-memory ledger nor the ledger file
changes. -/
theorem ExtractPost_decode_failure (env : Env) (e : State)
    (pageUrl outputFolder : GoString) (force : Bool)
    (body : GoString) (scripts : List GoString) (jsonString : GoString)
    (hrun : force = true ∨ extractPostID pageUrl ∉ e.downloadedPosts)
    (hf : env.FetchURL pageUrl = .ok body) (hs : env.scriptTexts body = .ok scripts)
    (hne : findScriptContent scripts ≠ [])
    (hj : extractJSONString (findScriptContent scripts) = .ret (jsonString, none))
    (hfail : (env.unmarshalString (bytes "\"" ++ jsonString ++ bytes "\"")).2 ≠ none ∨
      (env.unmarshalWrapper
        (env.unmarshalString (bytes "\"" ++ jsonString ++ bytes "\"")).1).2 ≠ none) :
    (∃ err, (ExtractPost env e pageUrl outputFolder force).1 = .ret (Post.zero, some err)) ∧
    (ExtractPost env e pageUrl outputFolder force).2.downloadedPosts = e.downloadedPosts ∧
    (ExtractPost env e pageUrl outputFolder force).2.logFile = e.logFile := by
  have hskip : ¬ (extractPostID pageUrl ∈ e.downloadedPosts ∧ force = false) := by
    rintro ⟨h1, h2⟩
    rcases hrun with h | h
    · rw [h2] at h
      cases h
    · exact h h1
  unfold ExtractPost
  rw [if_neg hskip]
  simp only [hf, hs, hne, if_false, hj]
  rcases hu : env.unmarshalString (bytes "\"" ++ jsonString ++ bytes "\"") with ⟨rawStr, uerr⟩
  rw [hu] at hfail
  cases uerr with
  | some err =>
    exact ⟨⟨_, rfl⟩, rfl, rfl⟩
  | none =>
    simp only [ne_eq, not_true_eq_false, false_or] at hfail
    rcases hw : env.unmarshalWrapper rawStr with ⟨wrapper, werr⟩
    rw [hw] at hfail
    cases werr with
    | none => exact absurd rfl hfail
    | some err =>
      have ht : RawPost.ToPost env { str := rawStr } = (Post.zero, some err) := by
        simp only [RawPost.ToPost, hw]
      dsimp only
      rw [ht]
      exact ⟨⟨_, rfl⟩, rfl, rfl⟩

theorem ExtractPost_decode_failure_witness :
    (demoEnv.unmarshalWrapper
      (bytes "\x7b\"post\":\x7b\"id\":7,\"slug\":5\x7d\x7d")).1.Post.Id = 7 ∧
    ((∃ err, (ExtractPost demoEnv freshState (bytes "https://x/p/e") (bytes "out") false).1
        = .ret (Post.zero, some err)) ∧
      (ExtractPost demoEnv freshState (bytes "https://x/p/e") (bytes "out") false).2.downloadedPosts
        = freshState.downloadedPosts ∧
      (ExtractPost demoEnv freshState (bytes "https://x/p/e") (bytes "out") false).2.logFile
        = freshState.logFile) ∧
    ((∃ err, (ExtractPost demoEnv seenState (bytes "https://x/p/d") (bytes "out") true).1
        = .ret (Post.zero, some err)) ∧
      (ExtractPost demoEnv seenState (bytes "https://x/p/d") (bytes "out") true).2.downloadedPosts
        = seenState.downloadedPosts ∧
      (ExtractPost demoEnv seenState (bytes "https://x/p/d") (bytes "out") true).2.logFile
        = seenState.logFile) :=
  ⟨by decide,
    ExtractPost_decode_failure demoEnv freshState (bytes "https://x/p/e") (bytes "out") false
      (pageWith
        (bytes "window._preloads = JSON.parse(\"\x7b\\\"post\\\":\x7b\\\"id\\\":7,\\\"slug\\\":5\x7d\x7d\")"))
      [bytes "window._preloads = JSON.parse(\"\x7b\\\"post\\\":\x7b\\\"id\\\":7,\\\"slug\\\":5\x7d\x7d\")"]
      (bytes "\x7b\\\"post\\\":\x7b\\\"id\\\":7,\\\"slug\\\":5\x7d\x7d")
      (Or.inr (by decide)) rfl rfl (by decide) (by decide) (Or.inr (by decide)),
    ExtractPost_decode_failure demoEnv seenState (bytes "https://x/p/d") (bytes "out") true
      (pageWith (bytes "window._preloads = JSON.parse(\"\\x\")"))
      [bytes "window._preloads = JSON.parse(\"\\x\")"] (bytes "\\x")
      (Or.inl rfl) rfl rfl (by decide) (by decide) (Or.inl (by decide))⟩

/-! ## `strings.Index`, `strings.Split`, `strings.ReplaceAll` -/

theorem not_infix_nil (sub : GoString) (h : sub ≠ []) : ¬ sub <:+: ([] : GoString) := by
  intro hin
  exact h (List.eq_nil_of_infix_nil hin)

theorem indexFrom_some (sub : GoString) (hsub : sub ≠ []) (s : GoString) (i j : Nat)
    (h : indexFrom sub s i = some j) :
    ∃ k, j = i + k ∧ s = s.take k ++ sub ++ s.drop (k + sub.length) ∧ ¬ sub <:+: s.take k := by
  induction s generalizing i with
  | nil =>
    unfold indexFrom at h
    rw [if_neg hsub] at h
    cases h
  | cons c s ih =>
    unfold indexFrom at h
    by_cases hp : sub.isPrefixOf (c :: s) = true
    · rw [if_pos hp] at h
      obtain ⟨t, ht⟩ := (isPrefixOf_iff _ _).1 hp
      refine ⟨0, ?_, ?_, ?_⟩
      · cases h
        rfl
      · rw [← ht]
        simp
      · simpa using not_infix_nil sub hsub
    · rw [if_neg hp] at h
      obtain ⟨k, hk, hs, hno⟩ := ih (i + 1) h
      refine ⟨k + 1, by omega, ?_, ?_⟩
      · have : k + 1 + sub.length = (k + sub.length) + 1 := by omega
        rw [this, List.take_succ_cons, List.drop_succ_cons, List.cons_append, List.cons_append,
          ← hs]
      · rw [List.take_succ_cons]
        intro hin
        rcases (List.infix_cons_iff).1 hin with h1 | h1
        · apply hp
          rw [isPrefixOf_iff]
          obtain ⟨t, ht⟩ := h1
          refine ⟨t ++ s.drop k, ?_⟩
          rw [← List.append_assoc, ht, List.cons_append, List.take_append_drop]
        · exact hno h1

theorem splitLoop_ne_nil (sep : GoString) (n : Nat) (s : GoString) : splitLoop sep n s ≠ [] := by
  cases n with
  | zero => simp [splitLoop]
  | succ n =>
    unfold splitLoop
    split <;> simp

theorem splitLoop_getLastD (sep : GoString) (hsep : sep ≠ []) (n : Nat) (s : GoString)
    (hn : s.length ≤ n) : ¬ sep <:+: (splitLoop sep n s).getLastD [] := by
  induction n generalizing s with
  | zero =>
    have hs : s = [] := List.length_eq_zero.1 (Nat.le_zero.1 hn)
    subst hs
    simpa [splitLoop] using not_infix_nil sep hsep
  | succ n ih =>
    unfold splitLoop
    cases h : indexFrom sep s 0 with
    | none => simpa using (indexFrom_none sep s 0).1 h
    | some m =>
      have hlen : (s.drop (m + sep.length)).length ≤ n := by
        have : 0 < sep.length := List.length_pos.2 hsep
        rw [List.length_drop]
        omega
      have hne := splitLoop_ne_nil sep n (s.drop (m + sep.length))
      have := ih (s.drop (m + sep.length)) hlen
      cases hq : splitLoop sep n (s.drop (m + sep.length)) with
      | nil => exact absurd hq hne
      | cons q qs =>
        rw [hq] at this
        show ¬ sep <:+: (s.take m :: splitLoop sep n (s.drop (m + sep.length))).getLastD []
        rw [hq]
        simpa using this

theorem mem_iff_infix_singleton (x : Nat) (s : GoString) : x ∈ s ↔ [x] <:+: s := by
  constructor
  · intro h
    obtain ⟨l1, l2, rfl⟩ := List.append_of_mem h
    exact ⟨l1, l2, by simp⟩
  · rintro ⟨l1, l2, rfl⟩
    simp

theorem Join_cons (p : GoString) (ps : List GoString) (sep : GoString) (h : ps ≠ []) :
    Join (p :: ps) sep = p ++ sep ++ Join ps sep := by
  cases ps with
  | nil => exact absurd rfl h
  | cons q rest => rfl

theorem not_infix_dropLast (sub : GoString) (hsub : sub ≠ []) : ¬ sub <:+: sub.dropLast := by
  intro h
  have h1 := h.length_le
  have h2 : 0 < sub.length := List.length_pos.2 hsub
  rw [List.length_dropLast] at h1
  omega

theorem indexFrom_leftmost (sub : GoString) (hsub : sub ≠ []) (s : GoString) (i j : Nat)
    (h : indexFrom sub s i = some j) :
    ∃ k, j = i + k ∧ s = s.take k ++ sub ++ s.drop (k + sub.length) ∧
      ¬ sub <:+: s.take k ++ sub.dropLast := by
  induction s generalizing i with
  | nil =>
    unfold indexFrom at h
    rw [if_neg hsub] at h
    cases h
  | cons c s ih =>
    unfold indexFrom at h
    by_cases hp : sub.isPrefixOf (c :: s) = true
    · rw [if_pos hp] at h
      obtain ⟨t, ht⟩ := (isPrefixOf_iff _ _).1 hp
      refine ⟨0, ?_, ?_, ?_⟩
      · cases h
        rfl
      · rw [← ht]
        simp
      · simpa using not_infix_dropLast sub hsub
    · rw [if_neg hp] at h
      obtain ⟨k, hk, hs, hno⟩ := ih (i + 1) h
      refine ⟨k + 1, by omega, ?_, ?_⟩
      · have : k + 1 + sub.length = (k + sub.length) + 1 := by omega
        rw [this, List.take_succ_cons, List.drop_succ_cons, List.cons_append, List.cons_append,
          ← hs]
      · rw [List.take_succ_cons, List.cons_append]
        intro hin
        rcases (List.infix_cons_iff).1 hin with h1 | h1
        · apply hp
          rw [isPrefixOf_iff]
          obtain ⟨t, ht⟩ := h1
          obtain ⟨d, hd⟩ := List.dropLast_prefix sub
          refine ⟨t ++ d ++ s.drop (k + sub.length), ?_⟩
          calc sub ++ (t ++ d ++ s.drop (k + sub.length))
              = (sub ++ t) ++ d ++ s.drop (k + sub.length) := by simp
            _ = c :: (s.take k ++ sub.dropLast) ++ d ++ s.drop (k + sub.length) := by rw [ht]
            _ = c :: (s.take k ++ (sub.dropLast ++ d) ++ s.drop (k + sub.length)) := by simp
            _ = c :: (s.take k ++ sub ++ s.drop (k + sub.length)) := by rw [hd]
            _ = c :: s := by rw [← hs]
        · exact hno h1

theorem LeftmostPieces_ne_nil (old : GoString) (pieces : List GoString)
    (h : LeftmostPieces old pieces) : pieces ≠ [] := by
  intro hp
  subst hp
  exact h

theorem LeftmostPieces_cons (old p : GoString) (pieces : List GoString)
    (hp : ¬ old <:+: p ++ old.dropLast) (h : LeftmostPieces old pieces) :
    LeftmostPieces old (p :: pieces) := by
  cases pieces with
  | nil => exact absurd h (fun h => h)
  | cons q rest => exact ⟨hp, h⟩

theorem LeftmostPieces_no_instance (old : GoString) (pieces : List GoString)
    (h : LeftmostPieces old pieces) : ∀ p ∈ pieces, ¬ old <:+: p := by
  induction pieces with
  | nil => intro p hp; cases hp
  | cons q rest ih =>
    cases rest with
    | nil =>
      intro p hp
      rw [List.mem_singleton] at hp
      subst hp
      exact h
    | cons r rest' =>
      intro p hp
      rcases List.mem_cons.1 hp with h1 | h1
      · subst h1
        intro hin
        exact h.1 (hin.trans (List.prefix_append _ _).isInfix)
      · exact ih h.2 p h1

theorem replaceLoop_leftmost (old new : GoString) (hold : old ≠ []) (n : Nat) (s : GoString)
    (hn : s.length ≤ n) :
    ∃ pieces : List GoString, LeftmostPieces old pieces ∧
      s = Join pieces old ∧ replaceLoop old new n s = Join pieces new := by
  induction n generalizing s with
  | zero =>
    have hs : s = [] := List.length_eq_zero.1 (Nat.le_zero.1 hn)
    subst hs
    exact ⟨[[]], not_infix_nil old hold, rfl, rfl⟩
  | succ n ih =>
    unfold replaceLoop
    cases h : indexFrom old s 0 with
    | none => exact ⟨[s], (indexFrom_none old s 0).1 h, rfl, rfl⟩
    | some j =>
      obtain ⟨k, hk, hs, hno⟩ := indexFrom_leftmost old hold s 0 j h
      have hjk : j = k := by omega
      subst hjk
      have hlen : (s.drop (j + old.length)).length ≤ n := by
        have : 0 < old.length := List.length_pos.2 hold
        rw [List.length_drop]
        omega
      obtain ⟨pieces, hleft, hjoin, hrep⟩ := ih (s.drop (j + old.length)) hlen
      have hne := LeftmostPieces_ne_nil old pieces hleft
      refine ⟨s.take j :: pieces, LeftmostPieces_cons old _ pieces hno hleft, ?_, ?_⟩
      · rw [Join_cons _ _ _ hne, ← hjoin]
        exact hs
      · dsimp only
        rw [Join_cons _ _ _ hne, ← hrep]

theorem earlier_instance (old p p' X X' : GoString)
    (h : p ++ (old ++ X) = p' ++ (old ++ X')) (hlt : p.length < p'.length) :
    old <:+: p' ++ old.dropLast := by
  rcases List.append_eq_append_iff.1 h with ⟨a, hp', ha⟩ | ⟨c, hp, _⟩
  · have ha0 : 0 < a.length := by
      have := congrArg List.length hp'
      rw [List.length_append] at this
      omega
    have h1 : old <+: a ++ (old ++ X') := ⟨X, ha⟩
    have h2 : a ++ old.dropLast <+: a ++ (old ++ X') := by
      rw [List.prefix_append_right_inj]
      exact (List.dropLast_prefix old).trans (List.prefix_append _ _)
    have h3 : old.length ≤ (a ++ old.dropLast).length := by
      rw [List.length_append, List.length_dropLast]
      omega
    obtain ⟨t, ht⟩ := List.prefix_of_prefix_length_le h1 h2 h3
    refine ⟨p, t, ?_⟩
    rw [hp', List.append_assoc, ht, List.append_assoc]
  · have := congrArg List.length hp
    rw [List.length_append] at this
    omega

theorem LeftmostPieces_unique (old : GoString) (pieces pieces' : List GoString)
    (h : LeftmostPieces old pieces) (h' : LeftmostPieces old pieces')
    (hjoin : Join pieces old = Join pieces' old) : pieces = pieces' := by
  induction pieces generalizing pieces' with
  | nil => exact absurd h (fun h => h)
  | cons p rest ih =>
    cases pieces' with
    | nil => exact absurd h' (fun h => h)
    | cons p' rest' =>
      cases rest with
      | nil =>
        cases rest' with
        | nil =>
          have : p = p' := hjoin
          rw [this]
        | cons q' r' =>
          exfalso
          apply h
          have : p = p' ++ old ++ Join (q' :: r') old := hjoin
          rw [this]
          exact ⟨p', Join (q' :: r') old, rfl⟩
      | cons q r =>
        cases rest' with
        | nil =>
          exfalso
          apply h'
          have : p ++ old ++ Join (q :: r) old = p' := hjoin
          rw [← this]
          exact ⟨p, Join (q :: r) old, rfl⟩
        | cons q' r' =>
          have hj : p ++ (old ++ Join (q :: r) old) = p' ++ (old ++ Join (q' :: r') old) := by
            have : p ++ old ++ Join (q :: r) old = p' ++ old ++ Join (q' :: r') old := hjoin
            simpa [List.append_assoc] using this
          have hlen : p.length = p'.length := by
            rcases Nat.lt_trichotomy p.length p'.length with hl | hl | hl
            · exact absurd (earlier_instance old p p' _ _ hj hl) h'.1
            · exact hl
            · exact absurd (earlier_instance old p' p _ _ hj.symm hl) h.1
          obtain ⟨hp, hrest⟩ := List.append_inj hj hlen
          have hX : Join (q :: r) old = Join (q' :: r') old := List.append_cancel_left hrest
          rw [hp, ih (q' :: r') h.2 h'.2 hX]

/-! ## `cleanFileName` and `ReplaceMediaURLs` -/

/-- The file name derived by `cleanFileName` contains no `/`. -/
theorem cleanFileName_no_slash (mediaUrl : GoString) : 47 ∉ cleanFileName mediaUrl := by
  have hseg : ∀ s : GoString, 47 ∉ (Split s (bytes "/") (by decide)).getLastD [] := by
    intro s hmem
    rw [mem_iff_infix_singleton] at hmem
    exact splitLoop_getLastD (bytes "/") (by decide) s.length s (le_refl _) hmem
  have hjpg : 47 ∉ bytes ".jpg" := by decide
  unfold cleanFileName
  dsimp only
  split
  · exact hseg _
  · intro hmem
    rcases List.mem_append.1 hmem with h | h
    · exact hseg _ h
    · exact hjpg h

/-- C10. The file name derived from `https://h/img.png?w=100` is not `img.png` but
`img.png?w=100.jpg`: the `?` and the query after it are still in the name, and
`.jpg` is appended to a name that has the extension `.png` before its query.
When the query holds a `/`, the name is taken from the query:
`https://h/img.png?next=/x` gives `x.jpg`. -/
theorem cleanFileName_keeps_query :
    cleanFileName (bytes "https://h/img.png?w=100") = bytes "img.png?w=100.jpg" ∧
    cleanFileName (bytes "https://h/img.png?w=100") ≠ bytes "img.png" ∧
    63 ∈ cleanFileName (bytes "https://h/img.png?w=100") ∧
    bytes "w=100" <:+: cleanFileName (bytes "https://h/img.png?w=100") ∧
    cleanFileName (bytes "https://h/img.png?next=/x") = bytes "x.jpg" := by
  refine ⟨by decide, by decide, by decide, ?_, by decide⟩
  rw [← Contains_iff]
  decide

theorem ReplaceAll_leftmost (s old new : GoString) (hold : old ≠ []) :
    ∃ pieces : List GoString, LeftmostPieces old pieces ∧
      s = Join pieces old ∧ ReplaceAll s old new = Join pieces new := by
  obtain ⟨pieces, hleft, hjoin, hrep⟩ := replaceLoop_leftmost old new hold s.length s (le_refl _)
  refine ⟨pieces, hleft, hjoin, ?_⟩
  unfold ReplaceAll
  by_cases he : old = new
  · rw [if_pos he, ← he, ← hjoin]
  · rw [if_neg he, if_neg hold, hrep]

/-- C4 (as amended). `ReplaceMediaURLs` makes one pass per entry of the download
map, in the order in which the map is iterated, and leaves the body as it is
when the map is empty.  The pass for an entry with a non-empty original URL
takes the current body apart as `p0 URL p1 URL ... pk` from left to right: each
URL taken is the first instance that begins after the previous one has ended
(`LeftmostPieces`: the URL does not occur in `pi` followed by the URL without
its last byte, nor in `pk`), so no piece contains the URL and the instances
taken do not overlap.  There is exactly one such way to take the body apart.
The pass puts the pieces together again as `p0 name p1 name ... pk`.  The text
that a pass produces is not searched again. -/
theorem ReplaceMediaURLs_one_pass_per_entry (BodyHTML originalURL fileName : GoString)
    (rest : StringMap) (hurl : originalURL ≠ []) :
    ReplaceMediaURLs BodyHTML [] = BodyHTML ∧
    ∃ pieces : List GoString, pieces ≠ [] ∧ (∀ p ∈ pieces, ¬ originalURL <:+: p) ∧
      LeftmostPieces originalURL pieces ∧
      BodyHTML = Join pieces originalURL ∧
      ReplaceMediaURLs BodyHTML ((originalURL, fileName) :: rest)
        = ReplaceMediaURLs (Join pieces fileName) rest ∧
      ∀ pieces' : List GoString, LeftmostPieces originalURL pieces' →
        BodyHTML = Join pieces' originalURL → pieces' = pieces := by
  refine ⟨rfl, ?_⟩
  obtain ⟨pieces, hleft, hjoin, hrep⟩ := ReplaceAll_leftmost BodyHTML originalURL fileName hurl
  refine ⟨pieces, LeftmostPieces_ne_nil _ _ hleft, LeftmostPieces_no_instance _ _ hleft, hleft,
    hjoin, ?_, ?_⟩
  · show ReplaceMediaURLs (ReplaceAll BodyHTML originalURL fileName) rest = _
    rw [hrep]
  · intro pieces' hleft' hjoin'
    exact LeftmostPieces_unique originalURL pieces' pieces hleft' hleft
      (hjoin'.symm.trans hjoin)

theorem ReplaceMediaURLs_one_pass_per_entry_witness :
    bytes "aa" ≠ [] ∧
    LeftmostPieces (bytes "aa") [bytes "", bytes "a"] ∧
    ¬ LeftmostPieces (bytes "aa") [bytes "a", bytes ""] ∧
    bytes "aaa" = Join [bytes "", bytes "a"] (bytes "aa") ∧
    bytes "aaa" = Join [bytes "a", bytes ""] (bytes "aa") ∧
    ReplaceMediaURLs (bytes "aaa") [(bytes "aa", bytes "b")] = bytes "ba" ∧
    ∃ pieces : List GoString, pieces ≠ [] ∧
      (∀ p ∈ pieces, ¬ bytes "aa" <:+: p) ∧
      LeftmostPieces (bytes "aa") pieces ∧
      bytes "aaa" = Join pieces (bytes "aa") ∧
      ReplaceMediaURLs (bytes "aaa") [(bytes "aa", bytes "b")]
        = ReplaceMediaURLs (Join pieces (bytes "b")) [] ∧
      ∀ pieces' : List GoString, LeftmostPieces (bytes "aa") pieces' →
        bytes "aaa" = Join pieces' (bytes "aa") → pieces' = pieces :=
  ⟨by decide,
    ⟨fun h => absurd ((Contains_iff _ _).2 h) (by decide),
      fun h => absurd ((Contains_iff _ _).2 h) (by decide)⟩,
    fun h => h.1 ((Contains_iff _ _).1 (by decide)),
    by decide, by decide, by decide,
    (ReplaceMediaURLs_one_pass_per_entry (bytes "aaa") (bytes "aa") (bytes "b") []
      (by decide)).2⟩

/-- C4 (counterexample). The body `nestedBody` holds one image, whose address
`http://h/a.png` the download map sends to the name `cleanFileName` gives it;
after `ReplaceMediaURLs` the body still contains that address. -/
theorem ReplaceMediaURLs_leaves_original_url :
    cleanFileName (bytes "http://h/a.png") = bytes "a.png" ∧
    ReplaceMediaURLs nestedBody [(bytes "http://h/a.png", cleanFileName (bytes "http://h/a.png"))]
      = bytes "<img src=\"a.png\">http://h/a.png" ∧
    bytes "http://h/a.png" <:+:
      ReplaceMediaURLs nestedBody [(bytes "http://h/a.png", cleanFileName (bytes "http://h/a.png"))] := by
  refine ⟨by decide, by decide, ?_⟩
  rw [← Contains_iff]
  decide

/-! ## The batch runner: every goroutine comes to its end -/

theorem stepTask_crashed (env : Env) (urls : List GoString) (outputFolder : GoString)
    (force : Bool) (b : Batch) (h : b.crashed ≠ none) (i : Nat) :
    stepTask env urls outputFolder force b i = b := by
  unfold stepTask
  rw [if_pos h]

theorem stepTask_length (env : Env) (urls : List GoString) (outputFolder : GoString)
    (force : Bool) (b : Batch) (i : Nat) :
    (stepTask env urls outputFolder force b i).pcs.length = b.pcs.length := by
  unfold stepTask
  repeat' split
  all_goals simp

theorem stepTask_other (env : Env) (urls : List GoString) (outputFolder : GoString)
    (force : Bool) (b : Batch) (i j : Nat) (h : i ≠ j) :
    (stepTask env urls outputFolder force b i).pcs[j]? = b.pcs[j]? := by
  unfold stepTask
  repeat' split
  all_goals simp [List.getElem?_set_ne h]

theorem stepTask_progress (env : Env) (urls : List GoString) (outputFolder : GoString)
    (force : Bool) (b : Batch) (i : Nat) (u : GoString) (pc : TaskPC)
    (hu : urls[i]? = some u) (hpc : b.pcs[i]? = some pc) :
    (stepTask env urls outputFolder force b i).crashed ≠ none ∨
    ∃ pc', (stepTask env urls outputFolder force b i).pcs[i]? = some pc' ∧
      min 11 (pc.rank + 1) ≤ pc'.rank := by
  have hi : i < b.pcs.length := by
    obtain ⟨hlt, _⟩ := List.getElem?_eq_some.1 hpc
    exact hlt
  by_cases hc : b.crashed = none
  · unfold stepTask
    rw [if_neg (by simp [hc]), hu, hpc]
    cases pc <;> dsimp only <;> repeat' split
    all_goals first
      | (left; simp; done)
      | (right; exact ⟨_, List.getElem?_set_self hi, by simp [TaskPC.rank]⟩)
      | (right; exact ⟨_, hpc, by simp [TaskPC.rank]⟩)
  · left
    rw [stepTask_crashed _ _ _ _ _ hc]
    exact hc


theorem rank_finished (pc : TaskPC) (h : 11 ≤ pc.rank) : pc = TaskPC.finished := by
  cases pc <;> simp [TaskPC.rank] at h ⊢

theorem foldl_crashed (env : Env) (urls : List GoString) (outputFolder : GoString)
    (force : Bool) (l : List Nat) (b : Batch) (h : b.crashed ≠ none) :
    l.foldl (stepTask env urls outputFolder force) b = b := by
  induction l with
  | nil => rfl
  | cons i l ih => rw [List.foldl_cons, stepTask_crashed _ _ _ _ _ h, ih]

theorem foldl_length (env : Env) (urls : List GoString) (outputFolder : GoString)
    (force : Bool) (l : List Nat) (b : Batch) :
    (l.foldl (stepTask env urls outputFolder force) b).pcs.length = b.pcs.length := by
  induction l generalizing b with
  | nil => rfl
  | cons i l ih => rw [List.foldl_cons, ih, stepTask_length]

theorem foldl_other (env : Env) (urls : List GoString) (outputFolder : GoString)
    (force : Bool) (l : List Nat) (b : Batch) (j : Nat) (h : ∀ i ∈ l, i ≠ j) :
    (l.foldl (stepTask env urls outputFolder force) b).pcs[j]? = b.pcs[j]? := by
  induction l generalizing b with
  | nil => rfl
  | cons i l ih =>
    rw [List.foldl_cons, ih _ (fun k hk => h k (List.mem_cons_of_mem _ hk)),
      stepTask_other _ _ _ _ _ _ _ (h i (List.mem_cons_self _ _))]

theorem foldl_replicate_rank (env : Env) (urls : List GoString) (outputFolder : GoString)
    (force : Bool) (i : Nat) (u : GoString) (hu : urls[i]? = some u) (k : Nat) (b : Batch)
    (pc : TaskPC) (hpc : b.pcs[i]? = some pc) :
    ((List.replicate k i).foldl (stepTask env urls outputFolder force) b).crashed ≠ none ∨
    ∃ pc', ((List.replicate k i).foldl (stepTask env urls outputFolder force) b).pcs[i]?
        = some pc' ∧ min 11 (pc.rank + k) ≤ pc'.rank := by
  induction k generalizing b pc with
  | zero => exact Or.inr ⟨pc, hpc, by simp⟩
  | succ k ih =>
    rw [List.replicate_succ, List.foldl_cons]
    rcases stepTask_progress env urls outputFolder force b i u pc hu hpc with hc | ⟨pc1, h1, hr1⟩
    · left
      rw [foldl_crashed _ _ _ _ _ _ hc]
      exact hc
    · rcases ih _ pc1 h1 with hc | ⟨pc2, h2, hr2⟩
      · exact Or.inl hc
      · refine Or.inr ⟨pc2, h2, ?_⟩
        omega

theorem completion_finished (env : Env) (urls : List GoString) (outputFolder : GoString)
    (force : Bool) (b : Batch) (hlen : b.pcs.length = urls.length) (m : Nat)
    (hm : m ≤ urls.length) :
    (((List.range m).flatMap (fun i => List.replicate 11 i)).foldl
      (stepTask env urls outputFolder force) b).crashed ≠ none ∨
    ∀ j, j < m →
      (((List.range m).flatMap (fun i => List.replicate 11 i)).foldl
        (stepTask env urls outputFolder force) b).pcs[j]? = some TaskPC.finished := by
  induction m with
  | zero => exact Or.inr (fun j hj => absurd hj (Nat.not_lt_zero _))
  | succ m ih =>
    rw [List.range_succ, List.flatMap_append, List.foldl_append]
    have hsingle : List.flatMap [m] (fun i => List.replicate 11 i) = List.replicate 11 m := by
      simp [List.flatMap]
    rw [hsingle]
    rcases ih (by omega) with hc | hfin
    · left
      rw [foldl_crashed _ _ _ _ _ _ hc]
      exact hc
    · have hl := foldl_length env urls outputFolder force
        ((List.range m).flatMap (fun i => List.replicate 11 i)) b
      have hmu : m < urls.length := by omega
      obtain ⟨pc, hpc⟩ : ∃ pc, (((List.range m).flatMap (fun i => List.replicate 11 i)).foldl
          (stepTask env urls outputFolder force) b).pcs[m]? = some pc :=
        ⟨_, List.getElem?_eq_getElem (by rw [hl, hlen]; exact hmu)⟩
      rcases foldl_replicate_rank env urls outputFolder force m (urls[m]) 
          (List.getElem?_eq_getElem hmu) 11 _ pc hpc with hc | ⟨pc', hpc', hr⟩
      · exact Or.inl hc
      · right
        intro j hj
        by_cases hjm : j = m
        · subst hjm
          rw [hpc', rank_finished pc' (by omega)]
        · rw [foldl_other _ _ _ _ _ _ j (fun i hi => by
            rw [List.eq_of_mem_replicate hi]
            exact fun h => hjm h.symm)]
          exact hfin j (by omega)

/-- When `wg.Wait()` returns, every goroutine has returned, unless a panic or a
fatal error has ended the program. -/
theorem runTasks_finished (env : Env) (e : State) (urls : List GoString)
    (outputFolder : GoString) (force : Bool) (schedule : List Nat)
    (h : (runTasks env e urls outputFolder force schedule).crashed = none) :
    (runTasks env e urls outputFolder force schedule).pcs
      = List.replicate urls.length TaskPC.finished := by
  have hlen0 : (schedule.foldl (stepTask env urls outputFolder force)
      (Batch.init e urls)).pcs.length = urls.length := by
    rw [foldl_length]
    simp [Batch.init]
  have hfin := completion_finished env urls outputFolder force _ hlen0 urls.length (le_refl _)
  unfold runTasks at h ⊢
  rcases hfin with hc | hfin
  · exact absurd h hc
  · rw [List.eq_replicate_iff]
    refine ⟨by rw [foldl_length]; exact hlen0, ?_⟩
    intro pc hpc
    obtain ⟨j, hj⟩ := List.mem_iff_getElem?.1 hpc
    have hjl : j < urls.length := by
      obtain ⟨hlt, _⟩ := List.getElem?_eq_some.1 hj
      rw [foldl_length, hlen0] at hlt
      exact hlt
    rw [hfin j hjl] at hj
    cases hj
    rfl

/-! ## The batch runner on a single URL: the schedule is immaterial -/

/-- `ExtractPost`, past its look-up, is `extractBody` followed, when a post has
been extracted, by the assignment to the ledger and the call of `WriteLogFile`. -/
theorem ExtractPost_phases (env : Env) (e : State) (pageUrl outputFolder : GoString)
    (force : Bool) (h : ¬ (extractPostID pageUrl ∈ e.downloadedPosts ∧ force = false)) :
    ExtractPost env e pageUrl outputFolder force
      = match extractBody env e pageUrl outputFolder with
        | (.ret (p, none), e2) =>
          (.ret (p, none),
            { e2 with
              downloadedPosts := e2.downloadedPosts.insert (extractPostID pageUrl)
              logFile := (WriteLogFile env e2.logFile [extractPostID pageUrl]).1 })
        | r => r := by
  unfold ExtractPost extractBody
  rw [if_neg h]
  dsimp only
  repeat' split
  all_goals first
    | rfl
    | (simp_all; done)
    | (simp_all
       rename_i hh
       rcases hh with ⟨_, rfl⟩
       simp)


theorem extractBody_panic (env : Env) (e : State) (pageUrl outputFolder : GoString)
    (msg : String) (h : (extractBody env e pageUrl outputFolder).1 = .panic msg) :
    pagePanics env pageUrl = true := by
  apply ExtractPost_panic env e pageUrl outputFolder true msg
  rw [ExtractPost_phases env e pageUrl outputFolder true (by simp)]
  revert h
  rcases extractBody env e pageUrl outputFolder with ⟨r, e2⟩
  intro h
  have h1 : r = .panic msg := h
  subst h1
  rfl

theorem stepTask_succ (env : Env) (u outputFolder : GoString) (force : Bool)
    (b : Batch) (i : Nat) : stepTask env [u] outputFolder force b (i + 1) = b := by
  unfold stepTask
  split
  · rfl
  · have : ([u] : List GoString)[i + 1]? = none := by simp
    rw [this]

theorem foldl_single (env : Env) (u outputFolder : GoString) (force : Bool)
    (l : List Nat) (b : Batch) :
    l.foldl (stepTask env [u] outputFolder force) b
      = (fun c => stepTask env [u] outputFolder force c 0)^[l.count 0] b := by
  induction l generalizing b with
  | nil => rfl
  | cons i l ih =>
    rw [List.foldl_cons, ih]
    cases i with
    | zero => rw [List.count_cons_self, Function.iterate_succ_apply]
    | succ i =>
      rw [stepTask_succ, List.count_cons_of_ne (by omega)]

theorem step_done (env : Env) (u outputFolder : GoString) (force : Bool) (e : State)
    (w : Bool) (nd : List GoString) (ch : List (Nat × ExtractResult)) :
    stepTask env [u] outputFolder force ⟨e, w, [TaskPC.finished], nd, ch, false, none⟩ 0
      = ⟨e, w, [TaskPC.finished], nd, ch, false, none⟩ := by
  simp [stepTask]

theorem step_start (env : Env) (u outputFolder : GoString) (force : Bool) (e : State)
    (nd : List GoString) (ch : List (Nat × ExtractResult)) :
    stepTask env [u] outputFolder force ⟨e, false, [TaskPC.start], nd, ch, false, none⟩ 0
      = if extractPostID u ∈ e.downloadedPosts ∧ force = false then
          ⟨e, false, [TaskPC.finished], nd, ch, false, none⟩
        else ⟨e, false, [TaskPC.checked], nd, ch, false, none⟩ := by
  simp [stepTask]

theorem step_checked (env : Env) (u outputFolder : GoString) (force : Bool) (e : State)
    (nd : List GoString) (ch : List (Nat × ExtractResult)) :
    stepTask env [u] outputFolder force ⟨e, false, [TaskPC.checked], nd, ch, false, none⟩ 0
      = if extractPostID u ∈ e.downloadedPosts ∧ force = false then
          ⟨e, false, [TaskPC.returned Post.zero none], nd, ch, false, none⟩
        else ⟨e, false, [TaskPC.fetching], nd, ch, false, none⟩ := by
  simp [stepTask]

theorem step_fetching (env : Env) (u outputFolder : GoString) (force : Bool) (e : State)
    (nd : List GoString) (ch : List (Nat × ExtractResult)) :
    stepTask env [u] outputFolder force ⟨e, false, [TaskPC.fetching], nd, ch, false, none⟩ 0
      = match extractBody env e u outputFolder with
        | (.panic msg, e2) => ⟨e2, false, [TaskPC.fetching], nd, ch, false, some msg⟩
        | (.ret (post, some err), e2) =>
          ⟨e2, false, [TaskPC.returned post (some err)], nd, ch, false, none⟩
        | (.ret (p, none), e2) => ⟨e2, false, [TaskPC.storing p], nd, ch, false, none⟩ := by
  simp only [stepTask]
  rw [if_neg (by simp)]
  simp only [List.getElem?_cons_zero]
  split <;> simp_all

theorem step_storing (env : Env) (u outputFolder : GoString) (force : Bool) (e : State)
    (p : Post) (nd : List GoString) (ch : List (Nat × ExtractResult)) :
    stepTask env [u] outputFolder force ⟨e, false, [TaskPC.storing p], nd, ch, false, none⟩ 0
      = ⟨e, true, [TaskPC.stored p], nd, ch, false, none⟩ := by
  simp [stepTask]

theorem step_stored (env : Env) (u outputFolder : GoString) (force : Bool) (e : State)
    (p : Post) (nd : List GoString) (ch : List (Nat × ExtractResult)) :
    stepTask env [u] outputFolder force ⟨e, true, [TaskPC.stored p], nd, ch, false, none⟩ 0
      = ⟨{ e with downloadedPosts := e.downloadedPosts.insert (extractPostID u) }, false,
          [TaskPC.logging p], nd, ch, false, none⟩ := by
  simp [stepTask]

theorem step_logging (env : Env) (u outputFolder : GoString) (force : Bool) (e : State)
    (p : Post) (nd : List GoString) (ch : List (Nat × ExtractResult)) :
    stepTask env [u] outputFolder force ⟨e, false, [TaskPC.logging p], nd, ch, false, none⟩ 0
      = ⟨{ e with logFile := (WriteLogFile env e.logFile [extractPostID u]).1 }, false,
          [TaskPC.returned p none], nd, ch, false, none⟩ := by
  simp [stepTask]

theorem step_returned (env : Env) (u outputFolder : GoString) (force : Bool) (e : State)
    (post : Post) (err : Option Error) (nd : List GoString) (ch : List (Nat × ExtractResult)) :
    stepTask env [u] outputFolder force
        ⟨e, false, [TaskPC.returned post err], nd, ch, false, none⟩ 0
      = if err = none ∧ extractPostID u ≠ [] then
          ⟨e, true, [TaskPC.marking post], nd, ch, false, none⟩
        else ⟨e, false, [TaskPC.sending post err], nd, ch, false, none⟩ := by
  simp [stepTask]

theorem step_marking (env : Env) (u outputFolder : GoString) (force : Bool) (e : State)
    (post : Post) (nd : List GoString) (ch : List (Nat × ExtractResult)) :
    stepTask env [u] outputFolder force ⟨e, true, [TaskPC.marking post], nd, ch, false, none⟩ 0
      = ⟨{ e with downloadedPosts := e.downloadedPosts.insert (extractPostID u) }, false,
          [TaskPC.appending post], nd, ch, false, none⟩ := by
  simp [stepTask]

theorem step_appending (env : Env) (u outputFolder : GoString) (force : Bool) (e : State)
    (post : Post) (nd : List GoString) (ch : List (Nat × ExtractResult)) :
    stepTask env [u] outputFolder force
        ⟨e, false, [TaskPC.appending post], nd, ch, false, none⟩ 0
      = ⟨e, false, [TaskPC.appended post nd], nd, ch, false, none⟩ := by
  simp [stepTask]

theorem step_appended (env : Env) (u outputFolder : GoString) (force : Bool) (e : State)
    (post : Post) (snapshot nd : List GoString) (ch : List (Nat × ExtractResult)) :
    stepTask env [u] outputFolder force
        ⟨e, false, [TaskPC.appended post snapshot], nd, ch, false, none⟩ 0
      = ⟨e, false, [TaskPC.sending post none], snapshot ++ [extractPostID u], ch, false, none⟩ := by
  simp [stepTask]

theorem step_sending (env : Env) (u outputFolder : GoString) (force : Bool) (e : State)
    (post : Post) (err : Option Error) (nd : List GoString) (ch : List (Nat × ExtractResult)) :
    stepTask env [u] outputFolder force
        ⟨e, false, [TaskPC.sending post err], nd, ch, false, none⟩ 0
      = ⟨e, false, [TaskPC.finished], nd, ch ++ [(0, { Post := post, Err := err })], false,
          none⟩ := by
  simp [stepTask]

/-- Eleven steps take the only goroutine of a run from its start to its end. -/
theorem eleven_steps (env : Env) (e : State) (u outputFolder : GoString) (force : Bool) :
    (fun c => stepTask env [u] outputFolder force c 0)^[11] (Batch.init e [u])
      = runAlone env e u outputFolder force := by
  have hinit : Batch.init e [u] = ⟨e, false, [TaskPC.start], [], [], false, none⟩ := rfl
  unfold runAlone
  simp only [Function.iterate_succ_apply, Function.iterate_zero, id]
  rw [hinit, step_start]
  by_cases hs : extractPostID u ∈ e.downloadedPosts ∧ force = false
  · rw [if_pos hs, if_pos hs]
    simp only [step_done]
  · rw [if_neg hs, if_neg hs, ExtractPost_phases env e u outputFolder force hs, step_checked,
      if_neg hs, step_fetching]
    rcases hb : extractBody env e u outputFolder with ⟨r, e2⟩
    rcases r with ⟨post, err⟩ | msg
    · cases err with
      | some err =>
        simp [step_returned, step_sending, step_done]
      | none =>
        simp only [step_storing, step_stored, step_logging]
        by_cases hid : extractPostID u = []
        · simp [hid, step_returned, step_sending, step_done]
        · simp [hid, step_returned, step_marking, step_appending, step_appended, step_sending,
            step_done]
    · simp [stepTask_crashed]


theorem step_runAlone (env : Env) (e : State) (u outputFolder : GoString) (force : Bool) :
    stepTask env [u] outputFolder force (runAlone env e u outputFolder force) 0
      = runAlone env e u outputFolder force := by
  have hinit : Batch.init e [u] = ⟨e, false, [TaskPC.start], [], [], false, none⟩ := rfl
  unfold runAlone
  rw [hinit]
  split
  · exact step_done _ _ _ _ _ _ _ _
  · split
    · exact stepTask_crashed _ _ _ _ _ (by simp) _
    · split
      · exact step_done _ _ _ _ _ _ _ _
      · exact step_done _ _ _ _ _ _ _ _

/-- A run on a single URL does not depend on the schedule: it is the body of the
goroutine run without interruption, with the call of `ExtractPost` in it. -/
theorem runTasks_single (env : Env) (e : State) (u outputFolder : GoString) (force : Bool)
    (schedule : List Nat) :
    runTasks env e [u] outputFolder force schedule = runAlone env e u outputFolder force := by
  have hcompl : (List.range [u].length).flatMap (fun i => List.replicate 11 i)
      = List.replicate 11 0 := rfl
  unfold runTasks
  rw [hcompl, foldl_single, foldl_single, List.count_replicate_self,
    ← Function.iterate_add_apply, Nat.add_comm, Function.iterate_add_apply, eleven_steps]
  apply Function.iterate_fixed
  exact step_runAlone env e u outputFolder force

theorem ExtractAllPosts_single (env : Env) (e : State) (u outputFolder : GoString)
    (force : Bool) (schedule : List Nat) :
    ExtractAllPosts env e [u] outputFolder force schedule
      = writeNewDownloads env (closeChannel (runAlone env e u outputFolder force)) := by
  unfold ExtractAllPosts
  rw [runTasks_single]

/-- C7. A batch of one URL whose identifier is not in the ledger, run with
`force` false, on a page whose script is `window._preloads = JSON.parse(")`:
under every schedule the goroutine panics in `extractJSONString`, the program
ends, and no `ExtractResult` is delivered. -/
theorem ExtractAllPosts_panics_without_result :
    extractPostID (bytes "https://x/p/b") ∉ freshState.downloadedPosts ∧
    extractJSONString (bytes "window._preloads = JSON.parse(\")")
      = .panic "slice bounds out of range" ∧
    ∀ schedule : List Nat,
      (ExtractAllPosts demoEnv freshState [bytes "https://x/p/b"] (bytes "out") false
        schedule).ch = [] ∧
      (ExtractAllPosts demoEnv freshState [bytes "https://x/p/b"] (bytes "out") false
        schedule).closed = false ∧
      (ExtractAllPosts demoEnv freshState [bytes "https://x/p/b"] (bytes "out") false
        schedule).crashed = some "slice bounds out of range" := by
  refine ⟨by decide, by decide, ?_⟩
  intro schedule
  rw [ExtractAllPosts_single]
  decide

/-- C8. A batch of one URL with identifier `a`, on an extractor with no log file:
`ExtractPost` appends the identifier as soon as the post is extracted, and the
batched write after `wg.Wait()` appends it again, so that under every schedule
the log file ends up with the line `a` twice. -/
theorem ExtractAllPosts_writes_identifier_twice :
    (ExtractPost demoEnv freshState (bytes "https://x/p/a") (bytes "out") false).2.logFile
      = some (bytes "a\n") ∧
    ∀ schedule : List Nat,
      (ExtractAllPosts demoEnv freshState [bytes "https://x/p/a"] (bytes "out") false
        schedule).newDownloads = [bytes "a"] ∧
      (ExtractAllPosts demoEnv freshState [bytes "https://x/p/a"] (bytes "out") false
        schedule).e.logFile = some (bytes "a\na\n") := by
  refine ⟨by decide, ?_⟩
  intro schedule
  rw [ExtractAllPosts_single]
  decide

/-- C6 (counterexample). A batch of one URL whose identifier is already in the
ledger, run with `force` false: the stream is closed without any result, while
`len(urls)` is one. -/
theorem ExtractAllPosts_skips_known_url :
    (ExtractAllPosts demoEnv seenState [bytes "https://x/p/a"] (bytes "out") false []).ch = [] ∧
    (ExtractAllPosts demoEnv seenState [bytes "https://x/p/a"] (bytes "out") false []).closed
      = true ∧
    [bytes "https://x/p/a"].length = 1 := by
  decide

/-! ## The batch runner: the result stream and the log file -/

theorem finish_of_running (env : Env) (b : Batch) (h : b.crashed = none) :
    (writeNewDownloads env (closeChannel b)).crashed = none ∧
    (writeNewDownloads env (closeChannel b)).closed = true ∧
    (writeNewDownloads env (closeChannel b)).ch = b.ch := by
  simp [writeNewDownloads, closeChannel, h]

theorem runAlone_skip (env : Env) (e : State) (u outputFolder : GoString) (force : Bool)
    (hs : extractPostID u ∈ e.downloadedPosts ∧ force = false) :
    (runAlone env e u outputFolder force).crashed = none ∧
    (runAlone env e u outputFolder force).ch = [] := by
  unfold runAlone
  rw [if_pos hs]
  exact ⟨rfl, rfl⟩

theorem runAlone_result (env : Env) (e : State) (u outputFolder : GoString) (force : Bool)
    (hs : ¬ (extractPostID u ∈ e.downloadedPosts ∧ force = false))
    (hnp : pagePanics env u = false) :
    (runAlone env e u outputFolder force).crashed = none ∧
    ∃ post err, (ExtractPost env e u outputFolder force).1 = .ret (post, err) ∧
      (runAlone env e u outputFolder force).ch = [(0, { Post := post, Err := err })] := by
  unfold runAlone
  rw [if_neg hs]
  rcases hE : ExtractPost env e u outputFolder force with ⟨r, e2⟩
  rcases r with ⟨post, err⟩ | msg
  · dsimp only
    split
    · exact ⟨rfl, post, err, rfl, rfl⟩
    · exact ⟨rfl, post, err, rfl, rfl⟩
  · exfalso
    have hp := ExtractPost_panic env e u outputFolder force msg (by rw [hE])
    rw [hnp] at hp
    cases hp

/-- What holds throughout a run in which every URL is skipped: the goroutines only
look the ledger up. -/
theorem skipped_step (env : Env) (e : State) (urls : List GoString) (outputFolder : GoString)
    (force : Bool)
    (hskip : ∀ u ∈ urls, extractPostID u ∈ e.downloadedPosts ∧ force = false)
    (b : Batch) (i : Nat)
    (h : b.crashed = none ∧ b.writing = false ∧ b.ch = [] ∧ b.e = e ∧
      ∀ (j : Nat) (pc : TaskPC), b.pcs[j]? = some pc → pc = TaskPC.start ∨ pc = TaskPC.finished) :
    (stepTask env urls outputFolder force b i).crashed = none ∧
    (stepTask env urls outputFolder force b i).writing = false ∧
    (stepTask env urls outputFolder force b i).ch = [] ∧
    (stepTask env urls outputFolder force b i).e = e ∧
    ∀ (j : Nat) (pc : TaskPC), (stepTask env urls outputFolder force b i).pcs[j]? = some pc →
      pc = TaskPC.start ∨ pc = TaskPC.finished := by
  obtain ⟨hc, hw, hch, he, hpcs⟩ := h
  unfold stepTask
  rw [if_neg (by simp [hc])]
  cases hu : urls[i]? with
  | none => exact ⟨hc, hw, hch, he, hpcs⟩
  | some url =>
    cases hpc : b.pcs[i]? with
    | none => exact ⟨hc, hw, hch, he, hpcs⟩
    | some pc =>
      rcases hpcs i pc hpc with h1 | h1
      · subst h1
        dsimp only
        rw [if_neg (by simp [hw]), if_pos (by rw [he]; exact hskip url (List.getElem?_mem hu))]
        refine ⟨hc, hw, hch, he, ?_⟩
        intro j pc hj
        dsimp only at hj
        rw [List.getElem?_set] at hj
        split at hj
        · split at hj
          · cases hj
            exact Or.inr rfl
          · cases hj
        · exact hpcs j pc hj
      · subst h1
        exact ⟨hc, hw, hch, he, hpcs⟩

theorem skipped_foldl (env : Env) (e : State) (urls : List GoString) (outputFolder : GoString)
    (force : Bool)
    (hskip : ∀ u ∈ urls, extractPostID u ∈ e.downloadedPosts ∧ force = false)
    (l : List Nat) (b : Batch)
    (h : b.crashed = none ∧ b.writing = false ∧ b.ch = [] ∧ b.e = e ∧
      ∀ (j : Nat) (pc : TaskPC), b.pcs[j]? = some pc → pc = TaskPC.start ∨ pc = TaskPC.finished) :
    (l.foldl (stepTask env urls outputFolder force) b).crashed = none ∧
    (l.foldl (stepTask env urls outputFolder force) b).ch = [] := by
  induction l generalizing b with
  | nil => exact ⟨h.1, h.2.2.1⟩
  | cons i l ih =>
    rw [List.foldl_cons]
    exact ih _ (skipped_step env e urls outputFolder force hskip b i h)


theorem ExtractAllPosts_nil_or_skipped (env : Env) (e : State) (urls : List GoString)
    (outputFolder : GoString) (force : Bool) (schedule : List Nat)
    (hskip : ∀ u ∈ urls, extractPostID u ∈ e.downloadedPosts ∧ force = false) :
    (ExtractAllPosts env e urls outputFolder force schedule).crashed = none ∧
    (ExtractAllPosts env e urls outputFolder force schedule).closed = true ∧
    (ExtractAllPosts env e urls outputFolder force schedule).ch = [] := by
  have hinit : (Batch.init e urls).crashed = none ∧ (Batch.init e urls).writing = false ∧
      (Batch.init e urls).ch = [] ∧ (Batch.init e urls).e = e ∧
      ∀ (j : Nat) (pc : TaskPC), (Batch.init e urls).pcs[j]? = some pc →
        pc = TaskPC.start ∨ pc = TaskPC.finished := by
    refine ⟨rfl, rfl, rfl, rfl, ?_⟩
    intro j pc hj
    have hmem : pc ∈ List.replicate urls.length TaskPC.start := List.getElem?_mem hj
    exact Or.inl (List.eq_of_mem_replicate hmem)
  have h := skipped_foldl env e urls outputFolder force hskip
    (schedule ++ (List.range urls.length).flatMap (fun i => List.replicate 11 i)) _ hinit
  rw [List.foldl_append] at h
  obtain ⟨h1, h2, h3⟩ := finish_of_running env _ h.1
  unfold ExtractAllPosts runTasks
  exact ⟨h1, h2, h3.trans h.2⟩

/-- C6 (as amended). On a list of at most one URL, and on a list of any length all
of whose URLs are skipped (`force` false and every identifier in the ledger at
the start), under every schedule: if the page of no URL that is processed
(`force` true, or identifier not in the ledger at the start) makes the
extraction panic, then the program is not ended by a panic or a fatal error, the
stream is closed, and it has delivered one `ExtractResult` for every URL that is
processed and none for a URL that is skipped, hence `len(urls)` results at most;
the result delivered for the URL of a one-URL list is what `ExtractPost` returns
for it.  Lists of several URLs of which some are processed are not covered: their
goroutines read and write the ledger without synchronisation
(`ExtractAllPosts_concurrent_map_writes`, `ExtractAllPosts_lost_append`). -/
theorem ExtractAllPosts_one_result_per_processed_url (env : Env) (e : State)
    (urls : List GoString) (outputFolder : GoString) (force : Bool) (schedule : List Nat)
    (hrace : urls.length ≤ 1 ∨
      ∀ u ∈ urls, extractPostID u ∈ e.downloadedPosts ∧ force = false)
    (hnp : ∀ u ∈ urls, (force = true ∨ extractPostID u ∉ e.downloadedPosts) →
      pagePanics env u = false) :
    (ExtractAllPosts env e urls outputFolder force schedule).crashed = none ∧
    (ExtractAllPosts env e urls outputFolder force schedule).closed = true ∧
    (ExtractAllPosts env e urls outputFolder force schedule).ch.length
      = urls.countP (fun u => decide (force = true ∨ extractPostID u ∉ e.downloadedPosts)) ∧
    (ExtractAllPosts env e urls outputFolder force schedule).ch.length ≤ urls.length ∧
    ∀ u, urls = [u] → (force = true ∨ extractPostID u ∉ e.downloadedPosts) →
      ∃ post err, (ExtractPost env e u outputFolder force).1 = .ret (post, err) ∧
        (ExtractAllPosts env e urls outputFolder force schedule).ch
          = [(0, { Post := post, Err := err })] := by
  have hall : (∀ u ∈ urls, extractPostID u ∈ e.downloadedPosts ∧ force = false) →
      (ExtractAllPosts env e urls outputFolder force schedule).crashed = none ∧
      (ExtractAllPosts env e urls outputFolder force schedule).closed = true ∧
      (ExtractAllPosts env e urls outputFolder force schedule).ch.length
        = urls.countP (fun u => decide (force = true ∨ extractPostID u ∉ e.downloadedPosts)) ∧
      (ExtractAllPosts env e urls outputFolder force schedule).ch.length ≤ urls.length ∧
      ∀ u, urls = [u] → (force = true ∨ extractPostID u ∉ e.downloadedPosts) →
        ∃ post err, (ExtractPost env e u outputFolder force).1 = .ret (post, err) ∧
          (ExtractAllPosts env e urls outputFolder force schedule).ch
            = [(0, { Post := post, Err := err })] := by
    intro hskip
    obtain ⟨h1, h2, h3⟩ := ExtractAllPosts_nil_or_skipped env e urls outputFolder force schedule hskip
    have hcount : urls.countP
        (fun u => decide (force = true ∨ extractPostID u ∉ e.downloadedPosts)) = 0 := by
      rw [List.countP_eq_zero]
      intro u hu
      have := hskip u hu
      simp [this.1, this.2]
    refine ⟨h1, h2, by rw [h3, hcount]; rfl, by rw [h3]; exact Nat.zero_le _, ?_⟩
    intro u hu hrun
    have := hskip u (by rw [hu]; exact List.mem_singleton.2 rfl)
    rcases hrun with hf | hn
    · rw [this.2] at hf
      cases hf
    · exact absurd this.1 hn
  rcases hrace with hlen | hskip
  · match urls, hlen, hnp, hall with
    | [], _, _, hall => exact hall (fun u hu => by cases hu)
    | [u], _, hnp, hall =>
      by_cases hs : extractPostID u ∈ e.downloadedPosts ∧ force = false
      · exact hall (fun v hv => by rw [List.mem_singleton.1 hv]; exact hs)
      · have hrun : force = true ∨ extractPostID u ∉ e.downloadedPosts := by
          by_cases hf : force = true
          · exact Or.inl hf
          · refine Or.inr (fun hm => hs ⟨hm, ?_⟩)
            simpa using hf
        obtain ⟨hc, post, err, hE, hch⟩ := runAlone_result env e u outputFolder force hs
          (hnp u (List.mem_singleton.2 rfl) hrun)
        obtain ⟨h1, h2, h3⟩ := finish_of_running env _ hc
        rw [ExtractAllPosts_single]
        refine ⟨h1, h2, ?_, ?_, ?_⟩
        · rw [h3, hch]
          simp [hrun]
        · rw [h3, hch]
          exact Nat.le_refl _
        · intro v hv _
          have huv : u = v := by
            have := List.singleton_inj.1 hv
            exact this
          subst huv
          exact ⟨post, err, hE, by rw [h3, hch]⟩
    | _ :: _ :: _, hlen, _, _ => simp at hlen
  · exact hall hskip

theorem ExtractAllPosts_one_result_per_processed_url_witness :
    [bytes "https://x/p/a"].length ≤ 1 ∧
    extractPostID (bytes "https://x/p/a") ∉ freshState.downloadedPosts ∧
    pagePanics demoEnv (bytes "https://x/p/a") = false ∧
    (ExtractAllPosts demoEnv freshState [bytes "https://x/p/a"] (bytes "out") false
      [0, 0, 1, 0]).closed = true ∧
    (ExtractAllPosts demoEnv freshState [bytes "https://x/p/a"] (bytes "out") false
      [0, 0, 1, 0]).ch.length = 1 :=
  ⟨by decide, by decide, by decide,
    (ExtractAllPosts_one_result_per_processed_url demoEnv freshState [bytes "https://x/p/a"]
      (bytes "out") false [0, 0, 1, 0] (Or.inl (by decide)) (by decide)).2.1,
    (ExtractAllPosts_one_result_per_processed_url demoEnv freshState [bytes "https://x/p/a"]
      (bytes "out") false [0, 0, 1, 0] (Or.inl (by decide)) (by decide)).2.2.1⟩

/-! ## The batch runner on several URLs: unsynchronised access to the ledger -/

set_option maxRecDepth 100000 in
/-- Two URLs with distinct identifiers, neither in the ledger.  When the second
goroutine comes to its assignment to the ledger in `ExtractPost` (line 279)
while the first is inside its own, the program ends with the fatal error
`concurrent map writes`: nothing is delivered and the stream is never closed.
When the second goroutine makes its look-up (line 355) at that moment, the
program goes on if the ledger is still empty, and ends with
`concurrent map read and map write` if the ledger has an entry. -/
theorem ExtractAllPosts_concurrent_map_writes :
    extractPostID (bytes "https://x/p/a") ≠ extractPostID (bytes "https://x/p/f") ∧
    (ExtractAllPosts twinEnv freshState [bytes "https://x/p/a", bytes "https://x/p/f"]
      (bytes "out") false [1, 1, 1, 0, 0, 0, 0, 1]).crashed = some "concurrent map writes" ∧
    (ExtractAllPosts twinEnv freshState [bytes "https://x/p/a", bytes "https://x/p/f"]
      (bytes "out") false [1, 1, 1, 0, 0, 0, 0, 1]).closed = false ∧
    (ExtractAllPosts twinEnv freshState [bytes "https://x/p/a", bytes "https://x/p/f"]
      (bytes "out") false [1, 1, 1, 0, 0, 0, 0, 1]).ch = [] ∧
    (ExtractAllPosts twinEnv freshState [bytes "https://x/p/a", bytes "https://x/p/f"]
      (bytes "out") false [0, 0, 0, 0, 1]).crashed = none ∧
    (ExtractAllPosts twinEnv seenState [bytes "https://x/p/a", bytes "https://x/p/f"]
      (bytes "out") true [0, 0, 0, 0, 1]).crashed = some "concurrent map read and map write" := by
  decide

set_option maxRecDepth 100000 in
/-- Two URLs with distinct identifiers, neither in the ledger.  The first
goroutine reads `newDownloads` for its `append` (line 362), the second runs from
its start to its end, and the first then writes the slice it has extended: both
results are delivered, but `newDownloads` holds the first identifier only, and
the log file, to which `ExtractPost` has appended both, gets only the first once
more from the batched write. -/
theorem ExtractAllPosts_lost_append :
    (ExtractAllPosts twinEnv freshState [bytes "https://x/p/a", bytes "https://x/p/f"]
      (bytes "out") false [0, 0, 0, 0, 0, 0, 0, 0, 0]).crashed = none ∧
    (ExtractAllPosts twinEnv freshState [bytes "https://x/p/a", bytes "https://x/p/f"]
      (bytes "out") false [0, 0, 0, 0, 0, 0, 0, 0, 0, 1, 1, 1, 1, 1, 1, 1, 1, 1, 1, 1]).ch.length
        = 2 ∧
    (ExtractAllPosts twinEnv freshState [bytes "https://x/p/a", bytes "https://x/p/f"]
      (bytes "out") false [0, 0, 0, 0, 0, 0, 0, 0, 0, 1, 1, 1, 1, 1, 1, 1, 1, 1, 1, 1]).newDownloads
        = [bytes "a"] ∧
    (ExtractAllPosts twinEnv freshState [bytes "https://x/p/a", bytes "https://x/p/f"]
      (bytes "out") false [0, 0, 0, 0, 0, 0, 0, 0, 0, 1, 1, 1, 1, 1, 1, 1, 1, 1, 1, 1]).e.logFile
        = some (bytes "a\nf\na\n") := by
  decide

set_option maxRecDepth 100000 in
/-- The same URL twice, its identifier not in the ledger, `force` false.  When
both goroutines have made their look-ups (lines 355 and 228) before either has
updated the ledger, the page is fetched twice and the identifier is written to
the log file four times.  When the second goroutine makes its first look-up
before, and its second look-up after, the first goroutine has run to its end,
the page is fetched once, and the second goroutine delivers the zero-value
`Post` with a nil error that `ExtractPost` returns for a post it skips. -/
theorem ExtractAllPosts_duplicate_url :
    (ExtractAllPosts demoEnv freshState [bytes "https://x/p/a", bytes "https://x/p/a"]
      (bytes "out") false [0, 0, 1, 1]).e.fetched
        = [bytes "https://x/p/a", bytes "https://x/p/a"] ∧
    (ExtractAllPosts demoEnv freshState [bytes "https://x/p/a", bytes "https://x/p/a"]
      (bytes "out") false [0, 0, 1, 1]).e.logFile = some (bytes "a\na\na\na\n") ∧
    (ExtractAllPosts demoEnv freshState [bytes "https://x/p/a", bytes "https://x/p/a"]
      (bytes "out") false [1]).e.fetched = [bytes "https://x/p/a"] ∧
    (ExtractAllPosts demoEnv freshState [bytes "https://x/p/a", bytes "https://x/p/a"]
      (bytes "out") false [1]).ch.map Prod.snd
        = [{ Post := { Post.zero with Slug := bytes "a" }, Err := none },
           { Post := Post.zero, Err := none }] ∧
    (ExtractAllPosts demoEnv freshState [bytes "https://x/p/a", bytes "https://x/p/a"]
      (bytes "out") false []).ch.length = 1 := by
  decide

/-! ## The log file: writing and reading back -/

theorem linesFrom_append_lf (F G cur : GoString) :
    linesFrom (F ++ 10 :: G) cur = linesFrom (F ++ [10]) cur ++ linesFrom G [] := by
  induction F generalizing cur with
  | nil => simp [linesFrom]
  | cons c F ih =>
    by_cases hc : c = 10
    · simp [linesFrom, hc, ih]
    · simp [linesFrom, hc, ih]

theorem linesFrom_line (x cur : GoString) (hx : 10 ∉ x) :
    linesFrom (x ++ [10]) cur = [cur ++ x] := by
  induction x generalizing cur with
  | nil => simp [linesFrom]
  | cons c x ih =>
    have hc : c ≠ 10 := fun h => hx (by simp [h])
    have hx' : 10 ∉ x := fun h => hx (List.mem_cons_of_mem _ h)
    simp [linesFrom, hc, ih _ hx']

theorem linesFrom_appended (F x : GoString) (hF : F = [] ∨ F.getLast? = some 10)
    (hx : 10 ∉ x) :
    linesFrom (F ++ (x ++ [10])) [] = linesFrom F [] ++ [x] := by
  rcases hF with hF | hF
  · subst hF
    simpa [linesFrom] using linesFrom_line x [] hx
  · obtain ⟨F', hF'⟩ : ∃ F', F = F' ++ [10] := by
      rw [List.getLast?_eq_some_iff] at hF
      exact hF
    subst hF'
    rw [List.append_assoc, List.singleton_append, linesFrom_append_lf, linesFrom_line x [] hx]
    simp

theorem mem_foldl_insert (lines : List GoString) (init : List GoString) (x : GoString) :
    x ∈ lines.foldl (fun downloadedPosts line => downloadedPosts.insert (dropCR line)) init
      ↔ x ∈ init ∨ ∃ line ∈ lines, dropCR line = x := by
  induction lines generalizing init with
  | nil => simp
  | cons l lines ih =>
    rw [List.foldl_cons, ih, List.mem_insert_iff]
    constructor
    · rintro ((h | h) | ⟨line, hl, h⟩)
      · exact Or.inr ⟨l, List.mem_cons_self _ _, h.symm⟩
      · exact Or.inl h
      · exact Or.inr ⟨line, List.mem_cons_of_mem _ hl, h⟩
    · rintro (h | ⟨line, hl, h⟩)
      · exact Or.inl (Or.inr h)
      · rcases List.mem_cons.1 hl with h1 | h1
        · subst h1
          exact Or.inl (Or.inl h.symm)
        · exact Or.inr ⟨line, h1, h⟩

theorem dropCR_of_no_cr (x : GoString) (h : x.getLast? ≠ some 13) : dropCR x = x := by
  unfold dropCR
  rw [if_neg h]

theorem ReadLogFile_ok_iff (data : GoString) :
    (ReadLogFile (some data)).2 = none ↔
      ∀ line ∈ linesFrom data [], line.length < MaxScanTokenSize := by
  unfold ReadLogFile
  dsimp only
  split
  · rename_i h
    rw [List.any_eq_true] at h
    obtain ⟨line, hl, hlong⟩ := h
    have hlong' : MaxScanTokenSize ≤ line.length := by simpa using hlong
    constructor
    · intro hc
      cases hc
    · intro hall
      have := hall line hl
      omega
  · rename_i h
    constructor
    · intro _ line hl
      by_contra hc
      apply h
      rw [List.any_eq_true]
      exact ⟨line, hl, by simpa using Nat.le_of_not_lt hc⟩
    · intro _
      rfl

theorem mem_ReadLogFile (data : GoString) (hok : (ReadLogFile (some data)).2 = none)
    (x : GoString) :
    x ∈ (ReadLogFile (some data)).1 ↔ ∃ line ∈ linesFrom data [], dropCR line = x := by
  have hall := (ReadLogFile_ok_iff data).1 hok
  have hnot : ¬ ((linesFrom data []).any (fun line => decide (MaxScanTokenSize ≤ line.length))
      = true) := by
    rw [List.any_eq_true]
    rintro ⟨line, hl, hlong⟩
    have := hall line hl
    have hlong' : MaxScanTokenSize ≤ line.length := by simpa using hlong
    omega
  unfold ReadLogFile
  dsimp only
  rw [if_neg hnot]
  dsimp only
  rw [mem_foldl_insert]
  simp

theorem WriteLogFile_ok (env : Env) (logFile : Option GoString) (downloadedPosts : List GoString)
    (h : (WriteLogFile env logFile downloadedPosts).2 = none) :
    (WriteLogFile env logFile downloadedPosts).1
      = some (logFile.getD [] ++ (downloadedPosts.map (fun post => post ++ bytes "\n")).flatten) := by
  unfold WriteLogFile at h ⊢
  split
  · rename_i err ho
    rw [ho] at h
    cases h
  · rename_i ho
    rw [ho] at h
    dsimp only at h ⊢
    split
    · rename_i n err hw
      rw [hw] at h
      cases h
    · rfl

theorem ExtractPost_success_commits (env : Env) (e : State) (pageUrl outputFolder : GoString)
    (force : Bool) (p : Post)
    (hrun : ¬ (extractPostID pageUrl ∈ e.downloadedPosts ∧ force = false))
    (hok : (ExtractPost env e pageUrl outputFolder force).1 = .ret (p, none)) :
    (ExtractPost env e pageUrl outputFolder force).2.logFile
      = (WriteLogFile env e.logFile [extractPostID pageUrl]).1 := by
  unfold ExtractPost at hok ⊢
  rw [if_neg hrun] at hok ⊢
  dsimp only at hok ⊢
  repeat' split
  all_goals first
    | rfl
    | simp_all

/-- C11 (as amended). Duplicate avoidance survives a restart when the log file
is well formed and the identifier reaches it.  Take a log file that is missing,
empty or ends with a line feed and that `ReadLogFile` loads without error, an
extractor whose in-memory ledger holds only identifiers of that file, and a URL
whose identifier contains no line feed, does not end with a carriage return and
is shorter than `MaxScanTokenSize` (it may even be empty).  After `ExtractPost`
has returned a nil error for that URL, and provided that `WriteLogFile`, if
`ExtractPost` had to call it, did not fail (`ExtractPost` ignores its error),
`NewExtractor` on the file succeeds, its ledger contains the identifier and
every identifier that was in the file before, and `ExtractPost` on the new
extractor with `force` false returns the zero-value `Post` with a nil error
without fetching. -/
theorem ExtractPost_restart_skips (env env' : Env) (e : State)
    (pageUrl outputFolder outputFolder' : GoString) (force : Bool) (p : Post)
    (hfile : e.logFile.getD [] = [] ∨ (e.logFile.getD []).getLast? = some 10)
    (hread : (ReadLogFile e.logFile).2 = none)
    (hmem : ∀ x ∈ e.downloadedPosts, x ∈ (ReadLogFile e.logFile).1)
    (hlf : 10 ∉ extractPostID pageUrl)
    (hcr : (extractPostID pageUrl).getLast? ≠ some 13)
    (hlen : (extractPostID pageUrl).length < MaxScanTokenSize)
    (hwrite : (force = true ∨ extractPostID pageUrl ∉ e.downloadedPosts) →
      (WriteLogFile env e.logFile [extractPostID pageUrl]).2 = none)
    (hok : (ExtractPost env e pageUrl outputFolder force).1 = .ret (p, none)) :
    ∃ e' : State,
      NewExtractor (ExtractPost env e pageUrl outputFolder force).2.logFile = (some e', none) ∧
      extractPostID pageUrl ∈ e'.downloadedPosts ∧
      (∀ x ∈ (ReadLogFile e.logFile).1, x ∈ e'.downloadedPosts) ∧
      ExtractPost env' e' pageUrl outputFolder' false = (.ret (Post.zero, none), e') ∧
      (ExtractPost env' e' pageUrl outputFolder' false).2.fetched = [] := by
  -- it is enough to read the identifier and the old identifiers back from the new file
  have key : ∀ file' : Option GoString, (ReadLogFile file').2 = none →
      extractPostID pageUrl ∈ (ReadLogFile file').1 →
      (∀ x ∈ (ReadLogFile e.logFile).1, x ∈ (ReadLogFile file').1) →
      ∃ e' : State, NewExtractor file' = (some e', none) ∧
        extractPostID pageUrl ∈ e'.downloadedPosts ∧
        (∀ x ∈ (ReadLogFile e.logFile).1, x ∈ e'.downloadedPosts) ∧
        ExtractPost env' e' pageUrl outputFolder' false = (.ret (Post.zero, none), e') ∧
        (ExtractPost env' e' pageUrl outputFolder' false).2.fetched = [] := by
    intro file' h2 hid hold
    refine ⟨{ downloadedPosts := (ReadLogFile file').1, logFile := file', fetched := [],
              created := [] }, ?_, hid, hold, ?_, ?_⟩
    · unfold NewExtractor
      rcases hr : ReadLogFile file' with ⟨l, err⟩
      rw [hr] at h2
      dsimp only at h2
      subst h2
      rfl
    · exact ExtractPost_skip env' _ pageUrl outputFolder' false ⟨hid, rfl⟩
    · rw [ExtractPost_skip env' _ pageUrl outputFolder' false ⟨hid, rfl⟩]
  by_cases hskip : extractPostID pageUrl ∈ e.downloadedPosts ∧ force = false
  · rw [ExtractPost_skip env e pageUrl outputFolder force hskip]
    exact key e.logFile hread (hmem _ hskip.1) (fun x hx => hx)
  · rw [ExtractPost_success_commits env e pageUrl outputFolder force p hskip hok]
    have hrun : force = true ∨ extractPostID pageUrl ∉ e.downloadedPosts := by
      by_cases hm : extractPostID pageUrl ∈ e.downloadedPosts
      · left
        cases hfo : force with
        | true => rfl
        | false => exact absurd ⟨hm, hfo⟩ hskip
      · exact Or.inr hm
    have hnew : (WriteLogFile env e.logFile [extractPostID pageUrl]).1
        = some (e.logFile.getD [] ++ (extractPostID pageUrl ++ [10])) := by
      rw [WriteLogFile_ok env _ _ (hwrite hrun)]
      simp [bytes]
    rw [hnew]
    have hlines := linesFrom_appended (e.logFile.getD []) (extractPostID pageUrl) hfile hlf
    have hold : ∀ line ∈ linesFrom (e.logFile.getD []) [], line.length < MaxScanTokenSize := by
      cases hf : e.logFile with
      | none => simp [linesFrom]
      | some data =>
        rw [hf] at hread
        simpa using (ReadLogFile_ok_iff data).1 hread
    have hok' : (ReadLogFile (some (e.logFile.getD [] ++ (extractPostID pageUrl ++ [10])))).2
        = none := by
      rw [ReadLogFile_ok_iff, hlines]
      intro line hl
      rcases List.mem_append.1 hl with h | h
      · exact hold line h
      · rw [List.mem_singleton] at h
        subst h
        exact hlen
    apply key _ hok'
    · rw [mem_ReadLogFile _ hok', hlines]
      exact ⟨_, by simp, dropCR_of_no_cr _ hcr⟩
    · intro x hx
      rw [mem_ReadLogFile _ hok', hlines]
      cases hf : e.logFile with
      | none =>
        rw [hf] at hx
        simp [ReadLogFile] at hx
      | some data =>
        rw [hf] at hx hread
        obtain ⟨line, hl, hd⟩ := (mem_ReadLogFile data hread x).1 hx
        exact ⟨line, by simp [hl], hd⟩

/-- A line of `MaxScanTokenSize` bytes or more makes `ReadLogFile` fail. -/
theorem ReadLogFile_too_long (x : GoString) (hx : 10 ∉ x) (hlong : MaxScanTokenSize ≤ x.length) :
    ReadLogFile (some (x ++ [10])) = ([], some "bufio.Scanner: token too long") := by
  have hl : linesFrom (x ++ [10]) [] = [x] := by
    simpa using linesFrom_line x [] hx
  unfold ReadLogFile
  dsimp only
  rw [hl]
  simp [hlong]

/-- A carriage return at the end of a line is not part of the identifier read. -/
theorem ReadLogFile_drops_cr :
    ReadLogFile (some (bytes "a\r\n")) = ([bytes "a"], none) := by
  decide

theorem ExtractPost_restart_skips_witness :
    NewExtractor (some (bytes "z\ny\r\n")) = (some loadedState, none) ∧
    (ExtractPost demoEnv loadedState (bytes "https://x/p/a") (bytes "out") false).1
      = .ret ({ Post.zero with Slug := bytes "a" }, none) ∧
    (ExtractPost demoEnv loadedState (bytes "https://x/p/a") (bytes "out") false).2.logFile
      = some (bytes "z\ny\r\na\n") ∧
    NewExtractor (some (bytes "z\ny\r\na\n"))
      = (some { downloadedPosts := [bytes "a", bytes "y", bytes "z"],
                logFile := some (bytes "z\ny\r\na\n"), fetched := [], created := [] }, none) ∧
    ∃ e' : State,
      NewExtractor (ExtractPost demoEnv loadedState (bytes "https://x/p/a") (bytes "out")
        false).2.logFile = (some e', none) ∧
      extractPostID (bytes "https://x/p/a") ∈ e'.downloadedPosts ∧
      (∀ x ∈ (ReadLogFile loadedState.logFile).1, x ∈ e'.downloadedPosts) ∧
      ExtractPost demoEnv e' (bytes "https://x/p/a") (bytes "out") false
        = (.ret (Post.zero, none), e') ∧
      (ExtractPost demoEnv e' (bytes "https://x/p/a") (bytes "out") false).2.fetched = [] :=
  ⟨by decide, by decide, by decide, by decide,
    ExtractPost_restart_skips demoEnv demoEnv loadedState (bytes "https://x/p/a") (bytes "out")
      (bytes "out") false { Post.zero with Slug := bytes "a" } (Or.inr (by decide))
      (by decide) (by decide) (by decide) (by decide) (by decide) (fun _ => by decide)
      (by decide)⟩

/-- When the log file cannot be opened for writing (here its directory does not
exist, so `ReadLogFile` has found no file and `os.OpenFile` cannot create one),
`ExtractPost` still returns the post with a nil error: the identifier is in the
in-memory ledger only, and an extractor made afresh has an empty ledger, with
which the page is fetched again. -/
theorem ExtractPost_ignores_write_error :
    (ExtractPost missingDirEnv freshState (bytes "https://x/p/a") (bytes "out") false).1
      = .ret ({ Post.zero with Slug := bytes "a" }, none) ∧
    (WriteLogFile missingDirEnv freshState.logFile [bytes "a"]).2
      = some "open logs/downloaded_posts.log: no such file or directory" ∧
    (ExtractPost missingDirEnv freshState (bytes "https://x/p/a") (bytes "out") false).2.logFile
      = none ∧
    NewExtractor (ExtractPost missingDirEnv freshState (bytes "https://x/p/a") (bytes "out")
        false).2.logFile = (some freshState, none) ∧
    extractPostID (bytes "https://x/p/a") ∉ freshState.downloadedPosts := by
  decide

/-- C11 (counterexample). The log file holds `abc` without a line feed, so the
extractor made from it has the identifier `abc` in its ledger.  `ExtractPost`
extracts the post with identifier `a` and appends `a` and a line feed; the file
then reads as the single line `abca`.  The ledger loaded afresh contains neither
`a` nor `abc`, and `ExtractPost` on the new extractor fetches the page again. -/
theorem ExtractPost_restart_loses_unterminated_line :
    NewExtractor (some (bytes "abc")) = (some unterminatedState, none) ∧
    extractPostID (bytes "https://x/p/a") = bytes "a" ∧
    (ExtractPost demoEnv unterminatedState (bytes "https://x/p/a") (bytes "out") false).1
      = .ret ({ Post.zero with Slug := bytes "a" }, none) ∧
    NewExtractor (ExtractPost demoEnv unterminatedState (bytes "https://x/p/a") (bytes "out")
        false).2.logFile
      = (some { downloadedPosts := [bytes "abca"], logFile := some (bytes "abca\n"),
                fetched := [], created := [] }, none) ∧
    bytes "a" ∉ [bytes "abca"] ∧ bytes "abc" ∉ [bytes "abca"] ∧
    (ExtractPost demoEnv
        { downloadedPosts := [bytes "abca"], logFile := some (bytes "abca\n"), fetched := [],
          created := [] }
        (bytes "https://x/p/a") (bytes "out") false).2.fetched = [bytes "https://x/p/a"] := by
  decide

/-! ## `cleanFileName`: the extension -/

theorem splitLoop_getLastD_suffix (sep : GoString) (hsep : sep ≠ []) (n : Nat) (s : GoString)
    (hn : s.length ≤ n) :
    ∃ pre, s = pre ++ (splitLoop sep n s).getLastD [] ∧ (pre = [] ∨ sep <:+ pre) := by
  induction n generalizing s with
  | zero =>
    have hs : s = [] := List.length_eq_zero.1 (Nat.le_zero.1 hn)
    subst hs
    exact ⟨[], by simp [splitLoop], Or.inl rfl⟩
  | succ n ih =>
    unfold splitLoop
    cases h : indexFrom sep s 0 with
    | none => exact ⟨[], by simp, Or.inl rfl⟩
    | some m =>
      obtain ⟨k, hk, hs, _⟩ := indexFrom_some sep hsep s 0 m h
      have hmk : m = k := by omega
      subst hmk
      have hlen : (s.drop (m + sep.length)).length ≤ n := by
        have : 0 < sep.length := List.length_pos.2 hsep
        rw [List.length_drop]
        omega
      obtain ⟨pre', hpre, hend⟩ := ih (s.drop (m + sep.length)) hlen
      have hne := splitLoop_ne_nil sep n (s.drop (m + sep.length))
      refine ⟨s.take m ++ sep ++ pre', ?_, Or.inr ?_⟩
      · show s = s.take m ++ sep ++ pre'
          ++ (s.take m :: splitLoop sep n (s.drop (m + sep.length))).getLastD []
        cases hq : splitLoop sep n (s.drop (m + sep.length)) with
        | nil => exact absurd hq hne
        | cons q qs =>
          rw [hq] at hpre
          have hl : (s.take m :: q :: qs).getLastD [] = (q :: qs).getLastD [] := by simp
          rw [hl, List.append_assoc, ← hpre]
          exact hs
      · rcases hend with h0 | h0
        · subst h0
          exact ⟨s.take m, by simp⟩
        · obtain ⟨t, ht⟩ := h0
          exact ⟨s.take m ++ sep ++ t, by rw [← ht]; simp⟩

theorem HasSuffix_iff (s suffix : GoString) : HasSuffix s suffix = true ↔ suffix <:+ s := by
  unfold HasSuffix
  simp

/-- C12. For every media URL, `cleanFileName` returns a name that ends with one
of the recognized extensions `.jpeg`, `.jpg`, `.png`, `.gif`.  The name is made
from the last segment of the path-unescaped URL (of the URL itself when it
cannot be unescaped), that is from what follows its last `/`: the segment is
returned unchanged if it ends with one of the extensions, and with `.jpg`
appended otherwise. -/
theorem cleanFileName_extension (mediaUrl : GoString) :
    validExtensions = [bytes ".jpeg", bytes ".jpg", bytes ".png", bytes ".gif"] ∧
    (∃ ext ∈ validExtensions, ext <:+ cleanFileName mediaUrl) ∧
    ∃ pre segment : GoString,
      (match PathUnescape mediaUrl with
        | (_, some _) => mediaUrl
        | (unescaped, none) => unescaped) = pre ++ segment ∧
      (pre = [] ∨ bytes "/" <:+ pre) ∧ 47 ∉ segment ∧
      ((∃ ext ∈ validExtensions, ext <:+ segment) → cleanFileName mediaUrl = segment) ∧
      ((¬ ∃ ext ∈ validExtensions, ext <:+ segment) →
        cleanFileName mediaUrl = segment ++ bytes ".jpg") := by
  have hany : ∀ seg : GoString,
      (validExtensions.any (fun ext => HasSuffix seg ext) = true)
        ↔ ∃ ext ∈ validExtensions, ext <:+ seg := by
    intro seg
    rw [List.any_eq_true]
    constructor
    · rintro ⟨ext, he, h⟩
      exact ⟨ext, he, (HasSuffix_iff _ _).1 h⟩
    · rintro ⟨ext, he, h⟩
      exact ⟨ext, he, (HasSuffix_iff _ _).2 h⟩
  -- the same holds of whatever string the name is cut out of
  have hres : ∀ (parsed result : GoString),
      result = (if validExtensions.any
            (fun ext => HasSuffix ((Split parsed (bytes "/") (by decide)).getLastD []) ext)
          then (Split parsed (bytes "/") (by decide)).getLastD []
          else (Split parsed (bytes "/") (by decide)).getLastD [] ++ bytes ".jpg") →
      (∃ ext ∈ validExtensions, ext <:+ result) ∧
      ∃ pre segment : GoString, parsed = pre ++ segment ∧
        (pre = [] ∨ bytes "/" <:+ pre) ∧ 47 ∉ segment ∧
        ((∃ ext ∈ validExtensions, ext <:+ segment) → result = segment) ∧
        ((¬ ∃ ext ∈ validExtensions, ext <:+ segment) → result = segment ++ bytes ".jpg") := by
    intro parsed result hresult
    obtain ⟨pre, hpre, hend⟩ := splitLoop_getLastD_suffix (bytes "/") (by decide)
      parsed.length parsed (le_refl _)
    have hno : 47 ∉ (Split parsed (bytes "/") (by decide)).getLastD [] := by
      intro hmem
      rw [mem_iff_infix_singleton] at hmem
      exact splitLoop_getLastD (bytes "/") (by decide) parsed.length parsed (le_refl _) hmem
    have hpre' : parsed = pre ++ (Split parsed (bytes "/") (by decide)).getLastD [] := hpre
    generalize (Split parsed (bytes "/") (by decide)).getLastD [] = segment
      at hno hpre' hresult
    by_cases hext : ∃ ext ∈ validExtensions, ext <:+ segment
    · rw [if_pos ((hany segment).2 hext)] at hresult
      subst hresult
      exact ⟨hext, pre, result, hpre', hend, hno, fun _ => rfl, fun h => absurd hext h⟩
    · rw [if_neg (fun h => hext ((hany segment).1 h))] at hresult
      subst hresult
      exact ⟨⟨bytes ".jpg", by decide, ⟨segment, rfl⟩⟩, pre, segment, hpre', hend, hno,
        fun h => absurd h hext, fun _ => rfl⟩
  exact ⟨rfl, hres _ (cleanFileName mediaUrl) rfl⟩

theorem cleanFileName_extension_witness :
    cleanFileName (bytes "https://h/a%2Fb.gif") = bytes "b.gif" ∧
    cleanFileName (bytes "https://h/pic") = bytes "pic.jpg" ∧
    (∃ ext ∈ validExtensions, ext <:+ cleanFileName (bytes "https://h/pic")) :=
  ⟨by decide, by decide, (cleanFileName_extension (bytes "https://h/pic")).2.1⟩

/-! ## `extractJSONString` -/


theorem lastIndexFrom_bound (sub s : GoString) (i j : Nat)
    (h : lastIndexFrom sub s i = some j) : i ≤ j ∧ j + sub.length ≤ i + s.length := by
  induction s generalizing i with
  | nil =>
    unfold lastIndexFrom at h
    split at h
    · rename_i hsub
      cases h
      simp [hsub]
    · cases h
  | cons c s ih =>
    unfold lastIndexFrom at h
    split at h
    · rename_i k hk
      cases h
      have := ih (i + 1) hk
      simp only [List.length_cons]
      omega
    · split at h
      · rename_i hp
        cases h
        have hlen : sub.length ≤ (c :: s).length := ((isPrefixOf_iff _ _).1 hp).length_le
        omega
      · cases h

/-- What `extractJSONString` does on every script text: it returns the error, or
it returns what lies between the end of the first opening marker and the start
of the last closing marker, or, when the last closing marker starts inside the
first opening marker, it panics. -/
theorem extractJSONString_cases (scriptContent : GoString) :
    extractJSONString scriptContent = .ret ([], some "failed to extract JSON string") ∨
    (∃ start end' : Nat,
      Index scriptContent (bytes "JSON.parse(\"") = (start : Int) ∧
      LastIndex scriptContent (bytes "\")") = (end' : Int) ∧
      start + 12 ≤ end' ∧ end' ≤ scriptContent.length ∧
      extractJSONString scriptContent
        = .ret ((scriptContent.drop (start + 12)).take (end' - (start + 12)), none)) ∨
    (∃ start end' : Nat,
      Index scriptContent (bytes "JSON.parse(\"") = (start : Int) ∧
      LastIndex scriptContent (bytes "\")") = (end' : Int) ∧
      start < end' ∧ end' < start + 12 ∧
      extractJSONString scriptContent = .panic "slice bounds out of range") := by
  have hlen : ((bytes "JSON.parse(\"").length : Int) = 12 := by decide
  unfold extractJSONString
  rw [hlen]
  unfold Index LastIndex
  cases hi : indexFrom (bytes "JSON.parse(\"") scriptContent 0 with
  | none => left; simp
  | some i =>
    cases hl : lastIndexFrom (bytes "\")") scriptContent 0 with
    | none => left; simp
    | some j =>
      have hb := lastIndexFrom_bound _ _ _ _ hl
      have hj : j ≤ scriptContent.length := by omega
      dsimp only
      by_cases hij : j ≤ i
      · left
        have : (i : Int) = -1 ∨ (j : Int) = -1 ∨ (i : Int) ≥ (j : Int) := by
          right; right
          exact_mod_cast hij
        rw [if_pos this]
      · have hnot : ¬ ((i : Int) = -1 ∨ (j : Int) = -1 ∨ (i : Int) ≥ (j : Int)) := by
          omega
        rw [if_neg hnot]
        unfold slice
        by_cases h12 : i + 12 ≤ j
        · right; left
          refine ⟨i, j, rfl, rfl, h12, hj, ?_⟩
          have hc : (0 : Int) ≤ (i : Int) + 12 ∧ (i : Int) + 12 ≤ (j : Int)
              ∧ (j : Int) ≤ (scriptContent.length : Int) := by omega
          rw [if_pos hc]
          have h1 : ((i : Int) + 12).toNat = i + 12 := by omega
          have h2 : (j : Int).toNat = j := by omega
          simp only [h1, h2]
        · right; right
          refine ⟨i, j, rfl, rfl, by omega, by omega, ?_⟩
          have hc : ¬ ((0 : Int) ≤ (i : Int) + 12 ∧ (i : Int) + 12 ≤ (j : Int)
              ∧ (j : Int) ≤ (scriptContent.length : Int)) := by omega
          rw [if_neg hc]

/-- C13. On the text `JSON.parse(")` the opening marker is found at `0` and the
closing marker at `11`; the guard `start >= end` lets them pass, the slice
`scriptContent[12:11]` is out of range, and `extractJSONString` panics instead
of returning.  A page whose script is `window._preloads = JSON.parse(")` brings
`ExtractPost` there. -/
theorem extractJSONString_panics_on_overlap :
    Index (bytes "JSON.parse(\")") (bytes "JSON.parse(\"") = 0 ∧
    LastIndex (bytes "JSON.parse(\")") (bytes "\")") = 11 ∧
    extractJSONString (bytes "JSON.parse(\")") = .panic "slice bounds out of range" ∧
    findScriptContent [bytes "window._preloads = JSON.parse(\")"]
      = bytes "window._preloads = JSON.parse(\")" ∧
    (ExtractPost demoEnv freshState (bytes "https://x/p/b") (bytes "out") false).1
      = .panic "slice bounds out of range" := by
  decide

end SbstckDl
